import Mathlib

/-!
Verification of the message-pack-parser decode–transform–encode pipeline.

This file gives a shallow embedding, in Lean 4, of the parts of the
repository that the checked claims are about:

* the raw-record constructor `BaseAspectDataPointRaw.from_list`
  (src/message_pack_parser/schemas/aspects_raw.py),
* the value transformer `stream_transform_aspect`
  (src/message_pack_parser/core/value_transformer.py),
* the output-contract engine `_apply_quantization` / `_transform_single_df`
  (src/message_pack_parser/core/output_transformer.py),
* the row-major packer `_prepare_df_for_row_major_packing`,
  `_get_struct_format_string` and the row-major branch of
  `HybridMessagePackZstStrategy._build_payloads`
  (src/tubuin_processor/core/output_strategies.py),
* the recursive column encoder `_series_to_bytes_recursive` and
  `_fill_nulls_per_contract`
  (src/message_pack_parser/core/encoders/columnar_encoder.py),
* the static-asset assembly of `HybridMessagePackZstStrategy._execute_write`.

Modelling conventions:

* Machine integers are `Int`/`Nat`, with explicit two's-complement
  reduction `% 2 ^ (8 * width)` where the source serializes them.
* Python/polars floating-point numbers are modelled as `Rat`.  No claim
  below depends on float rounding error or on the bit pattern of a float;
  where the source serializes a float to bytes (IEEE 754 little-endian via
  `struct.pack` or numpy `tobytes`), the byte encoding is taken as an
  explicit argument `packFloat`, constrained only by the property the
  source guarantees and the claims use: it emits exactly `width` bytes.
* Fallible Python code (exceptions) is modelled with `Except PErr`.
-/

/-- Error taxonomy of `core/exceptions.py`, restricted to the kinds that the
claims mention.  `schemaArity` is the `SchemaValidationError` raised by
`from_list` for over-length records; it carries the received length and the
schema arity exactly as the source interpolates them into the message. -/
inductive PErr where
  | schemaArity (received : Nat) (expected : Nat)
  | schemaValidation (msg : String)
  | transformation (msg : String)
  | outputGeneration (msg : String)
  | typeError (msg : String)
  | structError (msg : String)
  | valueError (msg : String)
  deriving DecidableEq, Repr

/-- Polars dtypes that appear in the pipeline (`pl.Int8` … `pl.Float64`,
`pl.Boolean`, `pl.Utf8`, `pl.List(inner)`).  List-of-struct columns are not
modelled: no checked claim touches that branch of the encoder. -/
inductive Dtype where
  | int8 | uint8 | int16 | uint16 | int32 | uint32 | int64 | uint64
  | float32 | float64
  | boolean
  | utf8
  | listOf (inner : Dtype)
  deriving DecidableEq, Repr

/-- `str(dtype)` for the dtypes above: the exact strings polars prints and
the descriptors store. -/
def Dtype.str : Dtype → String
  | .int8 => "Int8"
  | .uint8 => "UInt8"
  | .int16 => "Int16"
  | .uint16 => "UInt16"
  | .int32 => "Int32"
  | .uint32 => "UInt32"
  | .int64 => "Int64"
  | .uint64 => "UInt64"
  | .float32 => "Float32"
  | .float64 => "Float64"
  | .boolean => "Boolean"
  | .utf8 => "Utf8"
  | .listOf inner => "List[" ++ inner.str ++ "]"

/-- The `_NUMPY_DTYPE_MAP` dict of `columnar_encoder.py`: polars dtype to
numpy dtype name.  Note `Boolean` maps to `"uint8"`. -/
def numpyDtypeMap : Dtype → Option String
  | .int8 => some "int8"
  | .uint8 => some "uint8"
  | .int16 => some "int16"
  | .uint16 => some "uint16"
  | .int32 => some "int32"
  | .uint32 => some "uint32"
  | .int64 => some "int64"
  | .uint64 => some "uint64"
  | .float32 => some "float32"
  | .float64 => some "float64"
  | .boolean => some "uint8"
  | _ => none

/-- Byte width of the numpy dtype a column serializes to (`Boolean` counts
one byte because it serializes as `uint8`). -/
def Dtype.byteWidth : Dtype → Nat
  | .int8 | .uint8 | .boolean => 1
  | .int16 | .uint16 => 2
  | .int32 | .uint32 | .float32 => 4
  | .int64 | .uint64 | .float64 => 8
  | .utf8 | .listOf _ => 0

def Dtype.isFloat : Dtype → Bool
  | .float32 | .float64 => true
  | _ => false

def Dtype.isSignedInt : Dtype → Bool
  | .int8 | .int16 | .int32 | .int64 => true
  | _ => false

def Dtype.isUnsignedInt : Dtype → Bool
  | .uint8 | .uint16 | .uint32 | .uint64 => true
  | _ => false

def Dtype.isInt (d : Dtype) : Bool := d.isSignedInt || d.isUnsignedInt

/-- Smallest value representable in an integer dtype. -/
def Dtype.intMin (d : Dtype) : Int :=
  if d.isSignedInt then -(2 ^ (8 * d.byteWidth - 1)) else 0

/-- Largest value representable in an integer dtype. -/
def Dtype.intMax (d : Dtype) : Int :=
  if d.isSignedInt then 2 ^ (8 * d.byteWidth - 1) - 1 else 2 ^ (8 * d.byteWidth) - 1

def Dtype.inIntRange (d : Dtype) (z : Int) : Bool :=
  decide (d.intMin ≤ z) && decide (z ≤ d.intMax)

/-- Little-endian bytes of a natural number, `width` bytes. -/
def leBytes (width : Nat) (n : Nat) : List Nat :=
  (List.range width).map fun i => n / 256 ^ i % 256

/-- Two's-complement representative of an integer in `width` bytes. -/
def twosComp (width : Nat) (z : Int) : Nat :=
  (z % (2 ^ (8 * width) : Nat)).toNat

/-- Truncation toward zero of a rational (Python `int(q)`, numpy/polars
float-to-int cast of an in-range value). -/
def ratTrunc (q : Rat) : Int :=
  if 0 ≤ q then ⌊q⌋ else ⌈q⌉

/-- Rounding half away from zero: the rounding used by polars
`Series.round(0)` (Rust `f64::round`). -/
def roundAway (q : Rat) : Int :=
  if 0 ≤ q then ⌊q + 1 / 2⌋ else ⌈q - 1 / 2⌉

/-! ## Streaming decoder: `BaseAspectDataPointRaw.from_list`
(src/message_pack_parser/schemas/aspects_raw.py, lines 15–26)

Every field of every raw aspect schema in the repository is an `int` or an
`Optional[int]`, so a raw field descriptor is a name plus an optional flag,
and msgpack-decoded cell values are modelled by `DynValue`. -/

inductive DynValue where
  | null
  | int (z : Int)
  | float (q : Rat)
  | str (s : String)
  deriving DecidableEq, Repr

structure RawField where
  name : String
  optional : Bool
  deriving DecidableEq, Repr

/-- Pydantic (lax mode) validation of one `int` / `Optional[int]` field:
`None` is accepted only for optional fields; ints are accepted; floats are
accepted when integral; strings when they parse as an integer. -/
def validateIntField (f : RawField) (v : DynValue) : Bool :=
  match v with
  | .null => f.optional
  | .int _ => true
  | .float q => q.den == 1
  | .str s => (s.toInt?).isSome

/-- The `positional_values.extend([None] * ...)` step of `from_list`:
right-pad with `None` when the record is shorter than the schema. -/
def padNulls (schema : List RawField) (vals : List DynValue) : List DynValue :=
  if vals.length < schema.length then
    vals ++ List.replicate (schema.length - vals.length) DynValue.null
  else vals

/-- `BaseAspectDataPointRaw.from_list`: right-pad with `None` when the
record is shorter than the schema, reject with a `SchemaValidationError`
reporting both lengths when longer, then `model_validate` the dict built by
zipping field names with the (padded) values. -/
def from_list (schema : List RawField) (positional_values : List DynValue) :
    Except PErr (List (String × DynValue)) :=
  if positional_values.length > schema.length then
    .error (.schemaArity positional_values.length schema.length)
  else if (schema.zip (padNulls schema positional_values)).all
      (fun fv => validateIntField fv.1 fv.2) then
    .ok ((schema.map RawField.name).zip (padNulls schema positional_values))
  else
    .error (.schemaValidation "Pydantic validation failed")

/-- `Commands_log_Schema_Raw` (aspects_raw.py): nine fields, all `int`,
with only `target_unit_id` optional. -/
def commandsLogSchemaRaw : List RawField :=
  [⟨"frame", false⟩, ⟨"teamId", false⟩, ⟨"unitId", false⟩,
   ⟨"cmd_id", false⟩, ⟨"cmd_tag", false⟩, ⟨"target_unit_id", true⟩,
   ⟨"x", false⟩, ⟨"y", false⟩, ⟨"z", false⟩]

/-! ## Value transformer: `stream_transform_aspect`
(src/message_pack_parser/core/value_transformer.py)

Clean-record dictionaries map field names to values; a value may be an
integer, a float, or an enum member (`IntEnum` instance: symbolic name plus
integer code).  `none` at the value position is Python `None`; a missing
key is a missing dict entry (the two are distinct, and both occur). -/

inductive TValue where
  | int (z : Int)
  | float (q : Rat)
  | enumMember (name : String) (code : Int)
  deriving DecidableEq, Repr

/-- A Python dict with insertion order, as the transformer manipulates it. -/
abbrev TRecord := List (String × Option TValue)

def lookupAssoc (rec : TRecord) (k : String) : Option (Option TValue) :=
  (rec.find? fun kv => kv.1 == k).map Prod.snd

def removeAssoc (rec : TRecord) (k : String) : TRecord :=
  rec.filter fun kv => kv.1 != k

/-- Python `dict[k] = v`: update in place when present, append otherwise. -/
def insertAssoc (rec : TRecord) (k : String) (v : Option TValue) : TRecord :=
  if (rec.find? fun kv => kv.1 == k).isSome then
    rec.map fun kv => if kv.1 == k then (k, v) else kv
  else rec ++ [(k, v)]

/-- Python `value /= divisor` on an int or float (IntEnum divides as its
integer code); the result is a float. -/
def TValue.divideBy (v : TValue) (d : Rat) : TValue :=
  match v with
  | .int z => .float (z / d)
  | .float q => .float (q / d)
  | .enumMember _ c => .float (c / d)

/-- The numeric value a `TValue` contributes to arithmetic. -/
def TValue.toRat : TValue → Rat
  | .int z => (z : Rat)
  | .float q => q
  | .enumMember _ c => (c : Rat)

/-- One entry of `DEQUANTIZATION_CONFIG`: a divisor and the tagged fields
(built by `build_transformation_configs` from the raw-schema metadata). -/
structure DequantRules where
  divisor : Rat
  fields : List String
  deriving DecidableEq, Repr

/-- One field update of the dequantization loop:
`if field in transformed_dict and transformed_dict[field] is not None:
transformed_dict[field] /= divisor`. -/
def dequantField (rec : TRecord) (f : String) (d : Rat) : TRecord :=
  rec.map fun kv =>
    if kv.1 == f then
      (kv.1, match kv.2 with
             | some tv => some (tv.divideBy d)
             | none => none)
    else kv

/-- The dequantization step of `stream_transform_aspect`.  The walrus guard
`if divisor := dequant_rules.get("divisor")` skips the loop when the rules
are absent or the divisor is falsy (0). -/
def applyDequant (rules : Option DequantRules) (rec : TRecord) : TRecord :=
  match rules with
  | none => rec
  | some r => if r.divisor = 0 then rec
              else r.fields.foldl (fun acc f => dequantField acc f r.divisor) rec

/-- An `IntEnum` class: ordered symbolic members with integer codes. -/
structure EnumDef where
  members : List (String × Int)
  deriving DecidableEq, Repr

/-- `enum_class(raw_val)`: look the member up by code; `ValueError` when no
member matches, modelled as `none`. -/
def enumFromCode (e : EnumDef) (z : Int) : Option (String × Int) :=
  e.members.find? fun m => m.2 == z

/-- The integer `enum_class(...)` is called with: an int is used as is, an
integral float compares equal to its integer, anything else never matches a
member (`ValueError`). -/
def TValue.enumLookupCode : TValue → Option Int
  | .int z => some z
  | .float q => if q.den = 1 then some q.num else none
  | .enumMember _ c => some c

/-- One enum rule of `ASPECT_ENUM_MAPPINGS`, applied by
`stream_transform_aspect` lines 37–45: pop the raw field (unless it is also
the clean field), then, for a non-null raw value, insert the matching enum
member under the clean field, or log and insert `None` when the code is not
a member.  A null raw value inserts nothing. -/
def applyEnumRule (rec : TRecord) (rawField cleanField : String) (e : EnumDef) :
    TRecord :=
  match lookupAssoc rec rawField with
  | none => rec
  | some rawVal =>
    let rec1 := if rawField ≠ cleanField then removeAssoc rec rawField else rec
    match rawVal with
    | none => rec1
    | some v =>
      match v.enumLookupCode with
      | none => insertAssoc rec1 cleanField none
      | some z =>
        match enumFromCode e z with
        | some m => insertAssoc rec1 cleanField (some (.enumMember m.1 m.2))
        | none => insertAssoc rec1 cleanField none

def applyEnumRules (rules : List (String × String × EnumDef)) (rec : TRecord) :
    TRecord :=
  rules.foldl (fun acc r => applyEnumRule acc r.1 r.2.1 r.2.2) rec

/-- Declared type of a clean-schema field (aspects.py). -/
inductive CleanType where
  | int
  | float
  | bool
  | enum (e : EnumDef)
  deriving DecidableEq, Repr

/-- One clean-schema field: `nullable` is `Optional[T]`, `hasDefault` is a
declared `= None` default (pydantic treats a nullable field without a
default as required-but-nullable). -/
structure CleanField where
  name : String
  type : CleanType
  nullable : Bool
  hasDefault : Bool
  deriving DecidableEq, Repr

/-- Pydantic (lax) validation of one clean value against its declared type. -/
def validateCleanValue (t : CleanType) (v : TValue) : Bool :=
  match t, v with
  | .int, .int _ => true
  | .int, .float q => q.den == 1
  | .int, _ => false
  | .float, .int _ => true
  | .float, .float _ => true
  | .float, _ => false
  | .bool, _ => false
  | .enum e, .int z => (enumFromCode e z).isSome
  | .enum e, .enumMember n c => e.members.contains (n, c)
  | .enum _, _ => false

/-- `clean_schema_type.model_validate(transformed_dict)`: every declared
field must be present (or have a default), nulls are accepted only for
nullable fields, and values must validate against the declared types. -/
def validateClean (schema : List CleanField) (rec : TRecord) : Bool :=
  schema.all fun f =>
    match lookupAssoc rec f.name with
    | none => f.hasDefault
    | some none => f.nullable
    | some (some v) => validateCleanValue f.type v

/-- Configuration of `stream_transform_aspect` for one aspect: the clean
schema, the dequantization rules and the enum rules. -/
structure AspectTransformConfig where
  cleanSchema : List CleanField
  dequant : Option DequantRules
  enumRules : List (String × String × EnumDef)

/-- The per-record body of `stream_transform_aspect`: dequantize, apply the
enum rules, validate against the clean schema; a validation failure raises
`TransformationError`. -/
def transformRecord (cfg : AspectTransformConfig) (rec : TRecord) :
    Except PErr TRecord :=
  let d1 := applyDequant cfg.dequant rec
  let d2 := applyEnumRules cfg.enumRules d1
  if validateClean cfg.cleanSchema d2 then .ok d2
  else .error (.transformation "Transformation/validation failed")

/-- The stream loop of `stream_transform_aspect`: on a failing record,
skip the row when `skip_on_error` and re-raise otherwise. -/
def transformStream (skipOnError : Bool) (cfg : AspectTransformConfig) :
    List TRecord → Except PErr (List TRecord)
  | [] => .ok []
  | rec :: rest =>
    match transformRecord cfg rec with
    | .ok r => do
        let rs ← transformStream skipOnError cfg rest
        return r :: rs
    | .error e =>
      if skipOnError then transformStream skipOnError cfg rest
      else .error e

/-- `UnitEconomyEventsEnum` (config/enums.py). -/
def unitEconomyEventsEnum : EnumDef :=
  ⟨[("PRODUCTION_STARTED", 1), ("SNAPSHOT", 2), ("DESTROYED", 3)]⟩

/-- `Unit_economy_Schema` (schemas/aspects.py): the clean schema for the
`unit_economy` aspect; `event_type` is a required, non-nullable enum. -/
def unitEconomyCleanSchema : List CleanField :=
  [⟨"frame", .int, false, false⟩, ⟨"unit_id", .int, false, false⟩,
   ⟨"unit_def_id", .int, false, false⟩, ⟨"team_id", .int, false, false⟩,
   ⟨"event_type", .enum unitEconomyEventsEnum, false, false⟩,
   ⟨"metal_make", .float, false, false⟩, ⟨"metal_use", .float, false, false⟩,
   ⟨"energy_make", .float, false, false⟩, ⟨"energy_use", .float, false, false⟩]

/-- The `unit_economy` entries of `DEQUANTIZATION_CONFIG` and
`ASPECT_ENUM_MAPPINGS`, as built from the raw-schema field metadata. -/
def unitEconomyTransformConfig : AspectTransformConfig :=
  ⟨unitEconomyCleanSchema,
   some ⟨10, ["metal_make", "metal_use", "energy_make", "energy_use"]⟩,
   [("event_type", "event_type", unitEconomyEventsEnum)]⟩

/-- A decoded `unit_economy` raw record whose `event_type` code 99 is not a
member of `UnitEconomyEventsEnum`. -/
def unitEconomyBadEnumRecord : TRecord :=
  [("frame", some (.int 1)), ("unit_id", some (.int 2)),
   ("unit_def_id", some (.int 3)), ("team_id", some (.int 0)),
   ("event_type", some (.int 99)),
   ("metal_make", some (.int 10)), ("metal_use", some (.int 0)),
   ("energy_make", some (.int 0)), ("energy_use", some (.int 0))]

/-! ## Column tables

The output-contract engine and the row-major packer operate on tables of
fixed-width numeric columns (every contract in the repository casts or
quantizes to a numeric dtype before these stages).  A cell is `Option Rat`:
`none` is a polars null, integer dtypes hold integral rationals. -/

structure NumSeries where
  name : String
  dtype : Dtype
  cells : List (Option Rat)
  deriving DecidableEq, Repr

structure NumDataFrame where
  cols : List NumSeries
  deriving DecidableEq, Repr

/-- `len(df)`: the row count (all columns of a well-formed frame have the
same height). -/
def NumDataFrame.height (df : NumDataFrame) : Nat :=
  match df.cols.head? with
  | some c => c.cells.length
  | none => 0

/-- Well-formedness: every column has the frame's height. -/
def NumDataFrame.Wf (df : NumDataFrame) : Prop :=
  ∀ c ∈ df.cols, c.cells.length = df.height

/-- `df.null_count()` summed over all columns. -/
def NumDataFrame.nullCount (df : NumDataFrame) : Nat :=
  (df.cols.map fun c => (c.cells.filter Option.isNone).length).sum

/-- `df.fill_null(value)`: replace every null in every column. -/
def NumDataFrame.fillNull (df : NumDataFrame) (v : Int) : NumDataFrame :=
  ⟨df.cols.map fun c =>
    { c with cells := c.cells.map fun cell => some (cell.getD (v : Rat)) }⟩

/-! ## Output-contract engine: `_apply_quantization` and
`_transform_single_df` (src/message_pack_parser/core/output_transformer.py) -/

/-- The `params` dict of a column contract. -/
structure ContractParams where
  ptype : Option String
  scale : Option Rat
  deriving DecidableEq, Repr

/-- A column rule of an output contract.  `to_type` is the value of the
`"to_type"` key (`none` models the key being absent, which raises
`KeyError` wherever the source subscripts it). -/
structure ColContract where
  transform : String
  to_type : Option Dtype
  params : ContractParams
  deriving DecidableEq, Repr

/-- Table-level options of an output contract
(`table_options: {layout, null_encoding?}`). -/
structure TableMeta where
  layout : Option String
  null_encoding : Option Int
  deriving DecidableEq, Repr

/-- An output contract for one stream. -/
structure TableContract where
  columns : List (String × ColContract)
  table_options : TableMeta
  deriving DecidableEq, Repr

/-- Per-column output metadata produced by the engine (`transform` kind,
optional `scale`, `original_dtype`). -/
structure ColMetaOut where
  transform : String
  scale : Option Rat
  original_dtype : String
  deriving DecidableEq, Repr

/-- The `(table, per-column metadata)` metadata half: per-column records
plus the contract's `table_options` copied verbatim. -/
structure StreamMeta where
  columnsMeta : List (String × ColMetaOut)
  table : TableMeta
  deriving DecidableEq, Repr

/-- Polars `Series.cast` of one cell to an integer dtype: in-range values
truncate toward zero, out-of-range values raise (strict cast). Casting to a
float dtype keeps the numeric value (floats are modelled as rationals). -/
def castCell (t : Dtype) (cell : Option Rat) : Except PErr (Option Rat) :=
  match cell with
  | none => .ok none
  | some q =>
    if t.isFloat then .ok (some q)
    else if t.isInt then
      let z := ratTrunc q
      if t.inIntRange z then .ok (some (z : Rat))
      else .error (.transformation "cast overflow")
    else .error (.transformation "unsupported cast target")

def castCells (t : Dtype) : List (Option Rat) → Except PErr (List (Option Rat))
  | [] => .ok []
  | c :: cs => do
    let c' ← castCell t c
    let cs' ← castCells t cs
    return c' :: cs'

/-- `series / scale` (nulls propagate). -/
def seriesDivScalar (cells : List (Option Rat)) (s : Rat) : List (Option Rat) :=
  cells.map fun c => c.map (· / s)

/-- `series.round(0)` (half away from zero; the dtype stays float, so the
cells stay rational-valued integers). -/
def seriesRound0 (cells : List (Option Rat)) : List (Option Rat) :=
  cells.map fun c => c.map fun q => ((roundAway q : Int) : Rat)

/-- `series.abs().max()`: `none` on an empty or all-null column. -/
def seriesAbsMax (cells : List (Option Rat)) : Option Rat :=
  (cells.filterMap id).map abs |>.max?

/-- The `target_max` computed by the dynamic branch of
`_apply_quantization` from the name of the target dtype (`2^n - 1` for
`UIntN`, `2^(n-1) - 1` for `IntN`; a float name fails the integer parse
with `ValueError`). -/
def targetMaxOf (t : Dtype) : Option Int :=
  if t.isUnsignedInt then some (2 ^ (8 * t.byteWidth) - 1)
  else if t.isSignedInt then some (2 ^ (8 * t.byteWidth - 1) - 1)
  else none

/-- `_apply_quantization(series, col_contract)`: static quantization
divides by the contract scale, rounds and casts; dynamic symmetric
quantization derives the scale from the column's absolute maximum.  The
metadata records the transform kind, the scale and the original dtype. -/
def apply_quantization (series : NumSeries) (cc : ColContract) :
    Except PErr (NumSeries × ColMetaOut) := do
  let original_dtype := series.dtype.str
  let to_type ← match cc.to_type with
    | some t => pure t
    | none => .error (.transformation "KeyError: to_type")
  if cc.params.ptype = some "static" then
    let scale ← match cc.params.scale with
      | some s => pure s
      | none => .error (.transformation
          "Static quantization contract requires a scale parameter")
    let quantized ← castCells to_type (seriesRound0 (seriesDivScalar series.cells scale))
    return (⟨series.name, to_type, quantized⟩,
            ⟨"static_quantize", some scale, original_dtype⟩)
  else
    if ¬ series.dtype.isFloat then
      .error (.transformation "Dynamic quantization can only be applied to float types")
    else do
      let targetMax ← match targetMaxOf to_type with
        | some m => pure m
        | none => .error (.transformation "ValueError: invalid literal for int")
      let absMax := seriesAbsMax series.cells
      let scale : Rat :=
        match absMax with
        | none => 1
        | some m => if m = 0 then 1 else m / (targetMax : Rat)
      let quantized ← castCells to_type (seriesRound0 (seriesDivScalar series.cells scale))
      return (⟨series.name, to_type, quantized⟩,
              ⟨"symmetric_quantize", some scale, original_dtype⟩)

/-- `df.get_column(name)`; `none` models `ColumnNotFoundError`. -/
def NumDataFrame.getColumn (df : NumDataFrame) (name : String) : Option NumSeries :=
  df.cols.find? fun c => c.name == name

/-- `df.with_columns(new_series.alias(name))`: overwrite the column. -/
def NumDataFrame.withColumnReplaced (df : NumDataFrame) (name : String)
    (s : NumSeries) : NumDataFrame :=
  ⟨df.cols.map fun c => if c.name == name then s else c⟩

/-- One iteration of the `_transform_single_df` loop over the contract's
column rules, operating on the accumulated frame and metadata.  `df0` is
the untransformed input frame: the cast branch reads
`df.get_column(col_name).dtype` from it.  A missing column is skipped; the
`quantize` and `cast` branches transform; any other `transform` value falls
through untouched. -/
def transformContractStep (df0 : NumDataFrame)
    (acc : NumDataFrame × List (String × ColMetaOut))
    (entry : String × ColContract) :
    Except PErr (NumDataFrame × List (String × ColMetaOut)) :=
  let (outDf, metas) := acc
  let (col_name, cc) := entry
  match outDf.getColumn col_name with
  | none => .ok (outDf, metas)
  | some original_series =>
    if cc.transform = "quantize" then do
      let (new_series, transform_meta) ← apply_quantization original_series cc
      return (outDf.withColumnReplaced col_name new_series,
              metas ++ [(col_name, transform_meta)])
    else if cc.transform = "cast" then do
      let to_type ← match cc.to_type with
        | some t => pure t
        | none => .error (.transformation "KeyError: to_type")
      let newCells ← castCells to_type original_series.cells
      let new_series : NumSeries := ⟨col_name, to_type, newCells⟩
      let originalDtypeStr :=
        match df0.getColumn col_name with
        | some c => c.dtype.str
        | none => ""
      return (outDf.withColumnReplaced col_name new_series,
              metas ++ [(col_name, ⟨"none", none, originalDtypeStr⟩)])
    else .ok (outDf, metas)

def foldContractSteps (df0 : NumDataFrame)
    (acc : NumDataFrame × List (String × ColMetaOut)) :
    List (String × ColContract) →
    Except PErr (NumDataFrame × List (String × ColMetaOut))
  | [] => .ok acc
  | e :: es => do
    let acc' ← transformContractStep df0 acc e
    foldContractSteps df0 acc' es

/-- `_transform_single_df(df, contract)`: apply each column rule, return
the new frame plus metadata (per-column records and the contract's
`table_options`). -/
def transform_single_df (df : NumDataFrame) (contract : TableContract) :
    Except PErr (NumDataFrame × StreamMeta) := do
  let (outDf, metas) ← foldContractSteps df (df, []) contract.columns
  return (outDf, ⟨metas, contract.table_options⟩)

/-- The `army_value` column of scenario S4: `[0.0, 123.4, 999.9]`. -/
def armyValueSeries : NumSeries :=
  ⟨"army_value", .float64, [some 0, some (617 / 5), some (9999 / 10)]⟩

/-- The `army_value` rule of `army_value_timeline_contract`
(schemas/output_contracts.py): static quantize, scale 0.1, to UInt32. -/
def armyValueContract : ColContract :=
  ⟨"quantize", some .uint32, ⟨some "static", some (1 / 10)⟩⟩

/-! ## Row-major packer
(`_prepare_df_for_row_major_packing`, `_get_struct_format_string` and the
row-major branch of `HybridMessagePackZstStrategy._build_payloads`,
src/tubuin_processor/core/output_strategies.py) -/

/-- The message of the `OutputGenerationError` raised when a null-bearing
stream has no `null_encoding` rule. -/
def missingNullEncodingMsg (stream : String) : String :=
  "Stream " ++ stream ++ " contains null values but its contract is missing the table_options.null_encoding key."

/-- `_prepare_df_for_row_major_packing(df, metadata, stream_name)`: a
null-free frame passes through unchanged; otherwise
`metadata.table.null_encoding` must be present (else `OutputGenerationError`)
and every null is replaced with the sentinel. -/
def prepare_df_for_row_major_packing (df : NumDataFrame) (metadata : StreamMeta)
    (stream_name : String) : Except PErr NumDataFrame :=
  if df.nullCount = 0 then .ok df
  else
    match metadata.table.null_encoding with
    | none => .error (.outputGeneration (missingNullEncodingMsg stream_name))
    | some v => .ok (df.fillNull v)

/-- The `format_char_map` of `_get_struct_format_string`. -/
def formatChar : Dtype → Option Char
  | .int8 => some 'b'
  | .uint8 => some 'B'
  | .int16 => some 'h'
  | .uint16 => some 'H'
  | .int32 => some 'i'
  | .uint32 => some 'I'
  | .int64 => some 'q'
  | .uint64 => some 'Q'
  | .float32 => some 'f'
  | .float64 => some 'd'
  | _ => none

/-- `_get_struct_format_string(dtypes)`: one format char per dtype, little
endian; an unsupported dtype raises `TypeError`. -/
def get_struct_format_string : List Dtype → Except PErr (List Char)
  | [] => .ok []
  | d :: ds =>
    match formatChar d with
    | none => .error (.typeError "Unsupported dtype for struct packing")
    | some c => do
      let cs ← get_struct_format_string ds
      return c :: cs

/-- `struct.calcsize` of one format char (all alignment-free under `<`). -/
def fmtCharSize (c : Char) : Nat :=
  if c = 'b' ∨ c = 'B' then 1
  else if c = 'h' ∨ c = 'H' then 2
  else if c = 'i' ∨ c = 'I' ∨ c = 'f' then 4
  else if c = 'q' ∨ c = 'Q' ∨ c = 'd' then 8
  else 0

/-- `struct.Struct(format_string).size`. -/
def packerSize (chars : List Char) : Nat := (chars.map fmtCharSize).sum

/-- `struct.pack` of one cell.  `packFloat` is the IEEE 754 little-endian
byte encoding of a float value (`none` stands for NaN on the columnar
path); it is a parameter because no claim depends on float byte patterns.
Packing `None`, a non-integer into an integer slot, or an out-of-range
integer raises `struct.error`. -/
def packCell (packFloat : Nat → Option Rat → List Nat) (d : Dtype)
    (cell : Option Rat) : Except PErr (List Nat) :=
  match cell with
  | none => .error (.structError "required argument is not an integer")
  | some q =>
    if d.isFloat then .ok (packFloat d.byteWidth (some q))
    else if q.den = 1 then
      if d.inIntRange q.num then .ok (leBytes d.byteWidth (twosComp d.byteWidth q.num))
      else .error (.structError "argument out of range")
    else .error (.structError "required argument is not an integer")

/-- `packer.pack(*row)`: pack the row's cells against the column dtypes in
column order and concatenate. -/
def packRow (packFloat : Nat → Option Rat → List Nat) :
    List (Dtype × Option Rat) → Except PErr (List Nat)
  | [] => .ok []
  | (d, c) :: rest => do
    let b ← packCell packFloat d c
    let bs ← packRow packFloat rest
    return b ++ bs

/-- `df.iter_rows()`: the frame transposed to a list of rows. -/
def NumDataFrame.iterRows (df : NumDataFrame) : List (List (Option Rat)) :=
  (List.range df.height).map fun i => df.cols.map fun c => c.cells.getD i none

def packRows (packFloat : Nat → Option Rat → List Nat) (dtypes : List Dtype) :
    List (List (Option Rat)) → Except PErr (List Nat)
  | [] => .ok []
  | row :: rest => do
    let b ← packRow packFloat (dtypes.zip row)
    let bs ← packRows packFloat dtypes rest
    return b ++ bs

/-- The stream-descriptor entry the row-major branch of `_build_payloads`
records (layout, byte size, row count, row stride, data key). -/
structure RowMajorStreamSchema where
  layout : String
  byte_size : Nat
  num_rows : Nat
  row_byte_stride : Nat
  data_key : String
  deriving DecidableEq, Repr

/-- The row-major branch of `HybridMessagePackZstStrategy._build_payloads`
for one stream: prepare the frame, compile the struct format from the
column dtypes, pack the rows in order into one buffer, and record the
descriptor with `num_rows = len(df_prepared)` and
`row_byte_stride = packer.size`. -/
def buildRowMajorStream (packFloat : Nat → Option Rat → List Nat)
    (df : NumDataFrame) (metadata : StreamMeta) (stream_name : String) :
    Except PErr (List Nat × RowMajorStreamSchema) := do
  let df_prepared ← prepare_df_for_row_major_packing df metadata stream_name
  let chars ← get_struct_format_string (df_prepared.cols.map NumSeries.dtype)
  let blob ← packRows packFloat (df_prepared.cols.map NumSeries.dtype)
    df_prepared.iterRows
  return (blob,
    ⟨"row-major-mixed", blob.length, df_prepared.height, packerSize chars,
     stream_name⟩)

/-! ## Recursive column encoder
(`_series_to_bytes_recursive` and `_fill_nulls_per_contract`,
src/message_pack_parser/core/encoders/columnar_encoder.py) -/

/-- Cell payloads of a series entering the columnar encoder.  The
list-of-struct and msgpack-fallback branches of the source are not
modelled; no checked claim touches them. -/
inductive SeriesData where
  | nums (cells : List (Option Rat))
  | bools (cells : List (Option Bool))
  | strs (cells : List (Option String))
  | lists (cells : List (Option (List (Option Rat))))
  deriving DecidableEq, Repr

structure Series where
  name : String
  dtype : Dtype
  data : SeriesData
  deriving DecidableEq, Repr

/-- A schema entry emitted by the encoder for one column (the keys that the
claims inspect; unused keys are `none`). -/
structure ColSchemaEntry where
  name : String
  dtypeStr : String
  data_key : Option String
  offsets_key : Option String
  deriving DecidableEq, Repr

/-- UTF-8 bytes of a string (Python `s.encode("utf-8")`). -/
def utf8Bytes (s : String) : List Nat :=
  (s.data.flatMap String.utf8EncodeChar).map UInt8.toNat

/-- The offsets loop shared by the Utf8 and list branches:
`offs = [0]; acc = 0; for n in lens: acc += n; offs.append(acc)`. -/
def offsAux : List Nat → Nat → List Nat
  | [], _ => []
  | n :: ns, acc => (acc + n) :: offsAux ns (acc + n)

def offsetsOf (lens : List Nat) : List Nat := 0 :: offsAux lens 0

/-- The Utf8 branch of `_series_to_bytes_recursive`: per-cell UTF-8 bytes
(`b""` for null), cumulative offsets, concatenated data. -/
def encodeUtf8Series (cells : List (Option String)) : List Nat × List Nat :=
  let enc_parts := cells.map fun c => match c with
    | some s => utf8Bytes s
    | none => []
  (offsetsOf (enc_parts.map List.length), enc_parts.flatten)

/-- An element of the flattened data of a list column: a number, or the NaN
that an inner null becomes under a float inner dtype. -/
inductive ListElem where
  | num (q : Rat)
  | nan
  deriving DecidableEq, Repr

/-- The `proc` loop of the list branch: an inner `None` becomes NaN for
float inner dtypes and raises `ValueError` otherwise. -/
def procList (is_flt : Bool) : List (Option Rat) → Except PErr (List ListElem)
  | [] => .ok []
  | none :: rest =>
    if is_flt then do
      let es ← procList is_flt rest
      return .nan :: es
    else .error (.valueError "list has None in non-float inner dtype")
  | some q :: rest => do
    let es ← procList is_flt rest
    return .num q :: es

/-- numpy serialization of one flattened element at the inner dtype
(`np.asarray(proc, dtype=inner).tobytes()` elementwise): integers truncate
and wrap two's-complement style, floats go through `packFloat` (NaN is
`packFloat _ none`). -/
def packListElem (packFloat : Nat → Option Rat → List Nat) (inner : Dtype) :
    ListElem → List Nat
  | .num q =>
    if inner.isFloat then packFloat inner.byteWidth (some q)
    else leBytes inner.byteWidth (twosComp inner.byteWidth (ratTrunc q))
  | .nan => packFloat inner.byteWidth none

/-- The per-cell loop of the list-of-primitive branch, carrying the running
element count: a null cell appends an empty part and repeats the offset; a
non-empty cell appends its element bytes and advances the count by the
element count. -/
def encodeListCells (packFloat : Nat → Option Rat → List Nat) (inner : Dtype)
    (is_flt : Bool) :
    List (Option (List (Option Rat))) → Nat →
    Except PErr (List Nat × List (List Nat))
  | [], _ => .ok ([], [])
  | none :: rest, count => do
    let (offs, parts) ← encodeListCells packFloat inner is_flt rest count
    return (count :: offs, [] :: parts)
  | some sub_list :: rest, count => do
    let proc ← procList is_flt sub_list
    let bytes := (proc.map (packListElem packFloat inner)).flatten
    let count' := if proc ≠ [] then count + proc.length else count
    let (offs, parts) ← encodeListCells packFloat inner is_flt rest count'
    return (count' :: offs, (if proc ≠ [] then bytes else []) :: parts)

/-- The list-of-primitive branch of `_series_to_bytes_recursive`: offsets
(element counts) and flattened element bytes. -/
def encodeListSeries (packFloat : Nat → Option Rat → List Nat) (inner : Dtype)
    (cells : List (Option (List (Option Rat)))) :
    Except PErr (List Nat × List Nat) := do
  let is_flt := inner = Dtype.float32 ∨ inner = Dtype.float64
  let (offs, parts) ← encodeListCells packFloat inner is_flt cells 0
  return (0 :: offs, parts.flatten)

/-- The fixed-width primitive branch for a numeric series: nulls are
rejected for non-float dtypes (`ValueError`), null floats serialize as NaN,
and each cell serializes to `byteWidth` little-endian bytes (the numpy
`astype` cast wraps rather than raises). -/
def encodePrimitiveNums (packFloat : Nat → Option Rat → List Nat) (d : Dtype)
    (cells : List (Option Rat)) : Except PErr (List Nat) :=
  if (cells.any Option.isNone) ∧ ¬ d.isFloat then
    .error (.valueError "Series has nulls. Fill for non-float primitives.")
  else
    .ok ((cells.map fun c =>
      if d.isFloat then packFloat d.byteWidth c
      else leBytes d.byteWidth (twosComp d.byteWidth (ratTrunc (c.getD 0)))).flatten)

/-- The fixed-width primitive branch for a Boolean series: nulls are
rejected (Boolean is not float), then the numpy bool array is cast to
`uint8` (the `_NUMPY_DTYPE_MAP` target), one byte per value, `True` as 1
and `False` as 0. -/
def encodePrimitiveBools (cells : List (Option Bool)) : Except PErr (List Nat) :=
  if cells.any Option.isNone then
    .error (.valueError "Series has nulls. Fill for non-float primitives.")
  else
    .ok (cells.map fun c => if c.getD false then 1 else 0)

/-- `_series_to_bytes_recursive(series, base_name)` for the modelled
branches, dispatching in source order: list-of-primitive, Utf8, fixed-width
primitive (via `_NUMPY_DTYPE_MAP`). -/
def series_to_bytes_recursive (packFloat : Nat → Option Rat → List Nat)
    (s : Series) (base_name : String) :
    Except PErr (List (String × List Nat) × List ColSchemaEntry) :=
  match s.dtype, s.data with
  | .listOf inner, .lists cells =>
    if (numpyDtypeMap inner).isSome then do
      let (offs, data) ← encodeListSeries packFloat inner cells
      return ([(base_name ++ "_offs", (offs.map (leBytes 4)).flatten),
               (base_name ++ "_data", data)],
              [⟨base_name, (Dtype.listOf inner).str,
                some (base_name ++ "_data"), some (base_name ++ "_offs")⟩])
    else .error (.typeError "unhandled inner dtype")
  | .utf8, .strs cells =>
    let (offs, data) := encodeUtf8Series cells
    .ok ([(base_name ++ "_offs", (offs.map (leBytes 4)).flatten),
          (base_name ++ "_data", data)],
         [⟨base_name, "Utf8", some (base_name ++ "_data"),
           some (base_name ++ "_offs")⟩])
  | .boolean, .bools cells => do
    let bytes ← encodePrimitiveBools cells
    return ([(base_name ++ "_bin", bytes)],
            [⟨base_name, Dtype.boolean.str, some (base_name ++ "_bin"), none⟩])
  | d, .nums cells =>
    if (numpyDtypeMap d).isSome then do
      let bytes ← encodePrimitiveNums packFloat d cells
      return ([(base_name ++ "_bin", bytes)],
              [⟨base_name, d.str, some (base_name ++ "_bin"), none⟩])
    else .error (.typeError "unhandled dtype")
  | _, _ => .error (.typeError "series data does not match its dtype")

/-- `_series_to_bytes(series)`. -/
def series_to_bytes (packFloat : Nat → Option Rat → List Nat) (s : Series) :
    Except PErr (List (String × List Nat) × List ColSchemaEntry) :=
  series_to_bytes_recursive packFloat s s.name

/-- `_fill_nulls_per_contract(series, col_meta, table_meta, stream_name)`
for numeric series: the per-column `null_encoding` wins over the
table-level default; a null-bearing non-float series without either raises
`OutputGenerationError`. -/
def fill_nulls_per_contract (series : NumSeries) (col_null_encoding : Option Int)
    (table_meta : TableMeta) (stream_name : String) : Except PErr NumSeries :=
  if ¬ series.cells.any Option.isNone then .ok series
  else
    match col_null_encoding.orElse fun _ => table_meta.null_encoding with
    | none =>
      if ¬ series.dtype.isFloat then
        .error (.outputGeneration
          (stream_name ++ "." ++ series.name ++ " has nulls but no null_encoding rule."))
      else .ok series
    | some sentinel =>
      .ok { series with cells := series.cells.map fun c => some (c.getD (sentinel : Rat)) }

/-! ## Hybrid static assets
(`HybridMessagePackZstStrategy._execute_write`,
src/tubuin_processor/core/output_strategies.py, lines 245–299) -/

/-- A cell value of the definitions table (`defs_df.to_dicts()` rows). -/
inductive DVal where
  | int (z : Int)
  | str (s : String)
  deriving DecidableEq, Repr

abbrev DefsRow := List (String × DVal)

def lookupDefsRow (row : DefsRow) (k : String) : Option DVal :=
  (row.find? fun kv => kv.1 == k).map Prod.snd

/-- The `defs` entry of `OUTPUT_TRANSFORMATION_CONFIG`. -/
structure DefsContract where
  transform : Option String
  key_column : Option String
  value_columns : Option (List String)
  deriving DecidableEq, Repr

/-- `{row[key_col]: [row[col] for col in value_cols] for row in
defs_df.to_dicts()}`; a missing column raises `KeyError`, wrapped as
`OutputGenerationError`. -/
def buildDefsMap (rows : List DefsRow) (key_col : String)
    (value_cols : List String) : Except PErr (List (DVal × List DVal)) :=
  match rows with
  | [] => .ok []
  | row :: rest => do
    let k ← match lookupDefsRow row key_col with
      | some v => pure v
      | none => .error (.outputGeneration "Failed to build defs_map: column not found")
    let vs ← (fun cols => go row cols) value_cols
    let tail ← buildDefsMap rest key_col value_cols
    return (k, vs) :: tail
where
  go (row : DefsRow) : List String → Except PErr (List DVal)
    | [] => .ok []
    | c :: cs => do
      let v ← match lookupDefsRow row c with
        | some v => pure v
        | none => .error (.outputGeneration "Failed to build defs_map: column not found")
      let vs ← go row cs
      return v :: vs

/-- The `if not key_col` truthiness guard of `_execute_write`: a missing or
empty `key_column` parameter raises `OutputGenerationError`. -/
def defsParamKeyCol (dc : DefsContract) : Except PErr String :=
  match dc.key_column with
  | some k => if k = "" then .error (.outputGeneration "defs contract missing key_column or value_columns") else .ok k
  | none => .error (.outputGeneration "defs contract missing key_column or value_columns")

/-- The `if not value_cols` truthiness guard of `_execute_write`. -/
def defsParamValueCols (dc : DefsContract) : Except PErr (List String) :=
  match dc.value_columns with
  | some vs => if vs = [] then .error (.outputGeneration "defs contract missing key_column or value_columns") else .ok vs
  | none => .error (.outputGeneration "defs contract missing key_column or value_columns")

/-- The outcome of the asset-assembly part of `_execute_write`: the
`schema.static_assets` list and the key set of the `data` map. -/
structure HybridAssets where
  staticAssets : List String
  dataKeys : List String
  deriving DecidableEq, Repr

/-- Python truthiness of `game_meta_bytes` (`None` and `b""` are falsy). -/
def gameMetaTruthy : Option (List Nat) → Bool
  | none => false
  | some b => b ≠ []

/-- The `defs_df` block of `_execute_write` (lines 250–283): build and
attach the `defs_map` blob only when the table is non-empty and the `defs`
contract declares the `to_lookup_map` transform; otherwise the data map is
left as it was. -/
def hybridDefsData (data1 : List String) (rows : List DefsRow)
    (defs_contract : DefsContract) : Except PErr (List String) :=
  if rows ≠ [] then
    if defs_contract.transform = some "to_lookup_map" then do
      let key_col ← defsParamKeyCol defs_contract
      let value_cols ← defsParamValueCols defs_contract
      let _ ← buildDefsMap rows key_col value_cols
      pure (data1 ++ ["defs_map"])
    else pure data1
  else pure data1

/-- The static-asset assembly of `HybridMessagePackZstStrategy._execute_write`
(lines 245–299): attach `game_meta` when truthy; run the `defs_df` block
when a definitions table is supplied; but append `"defs_map"` to
`static_assets` whenever `defs_df is not None`. -/
def hybridAssembleAssets (payloadKeys : List String)
    (game_meta_bytes : Option (List Nat)) (defs_df : Option (List DefsRow))
    (defs_contract : DefsContract) : Except PErr HybridAssets := do
  let data1 := if gameMetaTruthy game_meta_bytes
    then payloadKeys ++ ["game_meta"] else payloadKeys
  let data2 ←
    match defs_df with
    | none => pure data1
    | some rows => hybridDefsData data1 rows defs_contract
  let static1 := if gameMetaTruthy game_meta_bytes then ["game_meta"] else []
  let static2 := if defs_df.isSome then static1 ++ ["defs_map"] else static1
  return ⟨static2, data2⟩

/-
===========================================================================
  THEOREMS
===========================================================================
-/

theorem from_list_over_length (schema : List RawField) (vals : List DynValue)
    (h : vals.length > schema.length) :
    from_list schema vals = .error (.schemaArity vals.length schema.length) := by
  simp [from_list, h]

theorem padNulls_eq (schema : List RawField) (vals : List DynValue)
    (h : vals.length ≤ schema.length) :
    padNulls schema vals =
      vals ++ List.replicate (schema.length - vals.length) DynValue.null := by
  rcases Nat.lt_or_ge vals.length schema.length with hlt | hge
  · simp [padNulls, hlt]
  · have hz : schema.length - vals.length = 0 := by omega
    simp [padNulls, hz, Nat.not_lt.mpr hge]

theorem from_list_ok_eq (schema : List RawField) (vals : List DynValue)
    (h : vals.length ≤ schema.length) :
    (from_list schema vals).isOk =
      ((schema.zip (padNulls schema vals)).all
        fun fv => validateIntField fv.1 fv.2) := by
  simp only [from_list, if_neg (Nat.not_lt.mpr h)]
  cases hall : (schema.zip (padNulls schema vals)).all
      (fun fv => validateIntField fv.1 fv.2) <;>
    simp [hall, Except.isOk, Except.toBool]

/-- C1 counterexample: the empty record has length 0 ≤ 9 = arity of the
`commands_log` raw schema, yet `from_list` fails on it, because the padded
nulls land on required fields and `model_validate` rejects them.  So
"decoding succeeds if and only if k ≤ arity(S)" is false as stated. -/
theorem C1_arity_counterexample :
    (List.length ([] : List DynValue) ≤ commandsLogSchemaRaw.length) ∧
      (from_list commandsLogSchemaRaw []).isOk = false := by
  constructor
  · decide
  · decide

/-- C1 (amended): decoding a list-shaped record of length `k` against a raw
schema `S` rejects with a `SchemaValidation` error reporting `k` against
`arity(S)` when `k > arity(S)`; when `k ≤ arity(S)` it succeeds if and only
if the record, right-padded with nulls to the arity, validates fieldwise
against the schema's declared types and optionality, and on success the
produced record binds the field names to exactly those padded values (so
the missing trailing fields are null). -/
theorem C1_decoder_arity (schema : List RawField) (vals : List DynValue) :
    (vals.length > schema.length →
      from_list schema vals = .error (.schemaArity vals.length schema.length)) ∧
    (vals.length ≤ schema.length →
      (((from_list schema vals).isOk = true) ↔
        ((schema.zip (vals ++ List.replicate (schema.length - vals.length)
            DynValue.null)).all fun fv => validateIntField fv.1 fv.2) = true) ∧
      ((from_list schema vals).isOk = true →
        from_list schema vals = .ok ((schema.map RawField.name).zip
          (vals ++ List.replicate (schema.length - vals.length) DynValue.null)))) := by
  refine ⟨fun h => from_list_over_length schema vals h, fun h => ⟨?_, ?_⟩⟩
  · rw [from_list_ok_eq schema vals h, padNulls_eq schema vals h]
  · intro hok
    have hval := (from_list_ok_eq schema vals h) ▸ hok
    rw [← padNulls_eq schema vals h]
    simp only [from_list, if_neg (Nat.not_lt.mpr h), hval, if_pos]

/-- Witness for C1: a ten-element record against the nine-field
`commands_log` schema is rejected with the arity error, and a full
nine-element record of ints decodes. -/
theorem C1_decoder_arity_witness :
    from_list commandsLogSchemaRaw (List.replicate 10 (DynValue.int 0)) =
      .error (.schemaArity 10 9) ∧
    (from_list commandsLogSchemaRaw (List.replicate 9 (DynValue.int 0))).isOk
      = true := by
  constructor
  · exact (C1_decoder_arity commandsLogSchemaRaw
      (List.replicate 10 (DynValue.int 0))).1 (by decide)
  · exact ((C1_decoder_arity commandsLogSchemaRaw
      (List.replicate 9 (DynValue.int 0))).2 (by decide)).1.mpr (by decide)

theorem nat_list_sum_zero (l : List Nat) (h : l.sum = 0) : ∀ x ∈ l, x = 0 := by
  induction l with
  | nil => intro x hx; cases hx
  | cons a as ih =>
    simp only [List.sum_cons, Nat.add_eq_zero] at h
    intro x hx
    rcases List.mem_cons.mp hx with rfl | hmem
    · exact h.1
    · exact ih h.2 x hmem

theorem map_some_getD_eq_self (cells : List (Option Rat)) (s : Rat)
    (h : ∀ c ∈ cells, c ≠ none) :
    (cells.map fun c => some (c.getD s)) = cells := by
  induction cells with
  | nil => rfl
  | cons c cs ih =>
    have hc := h c (List.mem_cons_self c cs)
    cases c with
    | none => exact absurd rfl hc
    | some q =>
      simp only [List.map_cons, Option.getD_some, List.cons.injEq, true_and]
      exact ih fun x hx => h x (List.mem_cons_of_mem _ hx)

theorem fillNull_of_nullCount_zero (df : NumDataFrame) (s : Int)
    (h : df.nullCount = 0) : df.fillNull s = df := by
  obtain ⟨cols⟩ := df
  have hcol : ∀ c ∈ cols, (c.cells.filter Option.isNone).length = 0 := by
    intro c hc
    exact nat_list_sum_zero _ h _ (List.mem_map_of_mem _ hc)
  simp only [NumDataFrame.fillNull, NumDataFrame.mk.injEq]
  refine (List.map_congr_left ?_).trans (List.map_id cols)
  intro c hc
  have hnone : ∀ cell ∈ c.cells, cell ≠ none := by
    intro cell hcell
    have hlen := hcol c hc
    rw [List.length_eq_zero, List.filter_eq_nil_iff] at hlen
    simpa using hlen cell hcell
  simp only [id]
  cases c with
  | mk nm dt cs =>
    simp only [NumSeries.mk.injEq, true_and]
    exact map_some_getD_eq_self cs _ hnone

/-- C2: row-major preparation of a stream's table: a table with at least
one null and no `table_options.null_encoding` in the contract metadata
fails with an `OutputGeneration` error; when `null_encoding` is provided,
every null in every column is replaced by that sentinel; a null-free table
passes through unchanged. -/
theorem C2_row_major_null_policy (df : NumDataFrame) (meta : StreamMeta)
    (stream : String) :
    (df.nullCount ≠ 0 → meta.table.null_encoding = none →
      prepare_df_for_row_major_packing df meta stream =
        .error (.outputGeneration (missingNullEncodingMsg stream))) ∧
    (∀ s, meta.table.null_encoding = some s →
      prepare_df_for_row_major_packing df meta stream = .ok (df.fillNull s)) ∧
    (df.nullCount = 0 →
      prepare_df_for_row_major_packing df meta stream = .ok df) := by
  refine ⟨fun hn he => ?_, fun s hs => ?_, fun hz => ?_⟩
  · simp [prepare_df_for_row_major_packing, hn, he]
  · by_cases hz : df.nullCount = 0
    · rw [fillNull_of_nullCount_zero df s hz]
      simp [prepare_df_for_row_major_packing, hz]
    · simp [prepare_df_for_row_major_packing, hz, hs]
  · simp [prepare_df_for_row_major_packing, hz]

/-- A one-column `UInt32` table with a null in its second row, used to
instantiate C2. -/
def nullDemoDf : NumDataFrame := ⟨[⟨"attacker_unit_id", .uint32, [some 1, none]⟩]⟩

/-- Witness for C2: on the demo table, preparation fails without a
`null_encoding`, substitutes the sentinel 0 when it is declared, and passes
a null-free table through. -/
theorem C2_row_major_null_policy_witness :
    prepare_df_for_row_major_packing nullDemoDf ⟨[], ⟨some "row-major-mixed", none⟩⟩
        "unit_events" =
      .error (.outputGeneration (missingNullEncodingMsg "unit_events")) ∧
    prepare_df_for_row_major_packing nullDemoDf
        ⟨[], ⟨some "row-major-mixed", some 0⟩⟩ "unit_events" =
      .ok ⟨[⟨"attacker_unit_id", .uint32, [some 1, some 0]⟩]⟩ ∧
    prepare_df_for_row_major_packing ⟨[⟨"frame", .uint32, [some 7]⟩]⟩
        ⟨[], ⟨some "row-major-mixed", none⟩⟩ "unit_events" =
      .ok ⟨[⟨"frame", .uint32, [some 7]⟩]⟩ := by
  refine ⟨?_, ?_, ?_⟩
  · exact (C2_row_major_null_policy nullDemoDf ⟨[], ⟨some "row-major-mixed", none⟩⟩
      "unit_events").1 (by decide) rfl
  · have h := (C2_row_major_null_policy nullDemoDf
      ⟨[], ⟨some "row-major-mixed", some 0⟩⟩ "unit_events").2.1 0 rfl
    rw [h]; rfl
  · exact (C2_row_major_null_policy ⟨[⟨"frame", .uint32, [some 7]⟩]⟩
      ⟨[], ⟨some "row-major-mixed", none⟩⟩ "unit_events").2.2 (by decide)

theorem leBytes_length (w n : Nat) : (leBytes w n).length = w := by
  simp [leBytes]

theorem packCell_length (packFloat : Nat → Option Rat → List Nat)
    (hpf : ∀ w q, (packFloat w q).length = w) (d : Dtype) (cell : Option Rat)
    (b : List Nat) (h : packCell packFloat d cell = .ok b) :
    b.length = d.byteWidth := by
  cases cell with
  | none => simp [packCell] at h
  | some q =>
    simp only [packCell] at h
    by_cases hf : d.isFloat = true
    · simp only [hf, if_pos] at h
      cases h
      exact hpf _ _
    · simp only [hf] at h
      by_cases hden : q.den = 1
      · simp only [hden, if_pos] at h
        by_cases hr : d.inIntRange q.num = true
        · simp only [hr, if_pos] at h
          cases h
          exact leBytes_length _ _
        · simp [hr] at h
      · simp [hden] at h

theorem formatChar_size (d : Dtype) (c : Char) (h : formatChar d = some c) :
    fmtCharSize c = d.byteWidth := by
  cases d <;> simp_all [formatChar, fmtCharSize, Dtype.byteWidth] <;> subst h <;> decide

theorem get_struct_format_size (ds : List Dtype) (chars : List Char)
    (h : get_struct_format_string ds = .ok chars) :
    packerSize chars = (ds.map Dtype.byteWidth).sum := by
  induction ds generalizing chars with
  | nil =>
    simp only [get_struct_format_string] at h
    cases h
    simp [packerSize]
  | cons d rest ih =>
    simp only [get_struct_format_string] at h
    cases hfc : formatChar d with
    | none => rw [hfc] at h; simp at h
    | some c =>
      rw [hfc] at h
      cases hrest : get_struct_format_string rest with
      | error e => rw [hrest] at h; simp [Except.bind] at h
      | ok cs =>
        rw [hrest] at h
        simp only [Except.bind, Except.map, pure, Except.pure] at h
        cases h
        simp only [packerSize, List.map_cons, List.sum_cons]
        rw [formatChar_size d c hfc]
        have := ih cs hrest
        simp only [packerSize] at this
        rw [this]

theorem packRow_length (packFloat : Nat → Option Rat → List Nat)
    (hpf : ∀ w q, (packFloat w q).length = w)
    (pairs : List (Dtype × Option Rat)) (b : List Nat)
    (h : packRow packFloat pairs = .ok b) :
    b.length = (pairs.map fun p => p.1.byteWidth).sum := by
  induction pairs generalizing b with
  | nil =>
    simp only [packRow] at h
    cases h
    rfl
  | cons p rest ih =>
    obtain ⟨d, c⟩ := p
    simp only [packRow] at h
    cases hcell : packCell packFloat d c with
    | error e =>
      rw [hcell] at h
      simp [bind, Except.bind, Functor.map, Except.map] at h
    | ok hd =>
      rw [hcell] at h
      cases hrest : packRow packFloat rest with
      | error e =>
        rw [hrest] at h
        simp [bind, Except.bind, Functor.map, Except.map] at h
      | ok tl =>
        rw [hrest] at h
        simp only [bind, Except.bind, Functor.map, Except.map, pure, Except.pure,
          Except.ok.injEq] at h
        subst h
        simp only [List.length_append, List.map_cons, List.sum_cons]
        rw [packCell_length packFloat hpf d c hd hcell, ih tl hrest]

theorem packRows_length (packFloat : Nat → Option Rat → List Nat)
    (hpf : ∀ w q, (packFloat w q).length = w) (dtypes : List Dtype)
    (rows : List (List (Option Rat))) (blob : List Nat)
    (hrow : ∀ row ∈ rows, row.length = dtypes.length)
    (h : packRows packFloat dtypes rows = .ok blob) :
    blob.length = rows.length * (dtypes.map Dtype.byteWidth).sum := by
  induction rows generalizing blob with
  | nil =>
    simp only [packRows] at h
    cases h
    simp
  | cons row rest ih =>
    simp only [packRows] at h
    cases hr : packRow packFloat (dtypes.zip row) with
    | error e =>
      rw [hr] at h
      simp [bind, Except.bind, Functor.map, Except.map] at h
    | ok b =>
      rw [hr] at h
      cases hrest : packRows packFloat dtypes rest with
      | error e =>
        rw [hrest] at h
        simp [bind, Except.bind, Functor.map, Except.map] at h
      | ok bs =>
        rw [hrest] at h
        simp only [bind, Except.bind, Functor.map, Except.map, pure, Except.pure,
          Except.ok.injEq] at h
        subst h
        have hlen : row.length = dtypes.length :=
          hrow row (List.mem_cons_self row rest)
        have hzip : ((dtypes.zip row).map fun p => p.1.byteWidth) =
            dtypes.map Dtype.byteWidth := by
          have : (dtypes.zip row).map Prod.fst = dtypes :=
            List.map_fst_zip dtypes row (le_of_eq hlen.symm)
          calc ((dtypes.zip row).map fun p => p.1.byteWidth)
              = ((dtypes.zip row).map Prod.fst).map Dtype.byteWidth := by
                rw [List.map_map]; rfl
            _ = dtypes.map Dtype.byteWidth := by rw [this]
        have h1 := packRow_length packFloat hpf (dtypes.zip row) b hr
        rw [hzip] at h1
        have h2 := ih bs (fun r hrm => hrow r (List.mem_cons_of_mem _ hrm)) hrest
        simp only [List.length_append, List.length_cons, h1, h2]
        ring

theorem prepare_preserves_shape (df : NumDataFrame) (meta : StreamMeta)
    (stream : String) (dfp : NumDataFrame)
    (h : prepare_df_for_row_major_packing df meta stream = .ok dfp) :
    dfp.cols.map NumSeries.dtype = df.cols.map NumSeries.dtype ∧
    dfp.height = df.height := by
  simp only [prepare_df_for_row_major_packing] at h
  by_cases hz : df.nullCount = 0
  · simp only [hz, if_pos] at h
    cases h
    exact ⟨rfl, rfl⟩
  · simp only [hz, if_neg] at h
    cases he : meta.table.null_encoding with
    | none => rw [he] at h; cases h
    | some v =>
      rw [he] at h
      cases h
      constructor
      · simp [NumDataFrame.fillNull, List.map_map]
      · obtain ⟨cols⟩ := df
        cases cols with
        | nil => rfl
        | cons c cs =>
          simp [NumDataFrame.fillNull, NumDataFrame.height]

theorem iterRows_row_length (df : NumDataFrame) :
    ∀ row ∈ df.iterRows, row.length = df.cols.length := by
  intro row hrow
  simp only [NumDataFrame.iterRows, List.mem_map] at hrow
  obtain ⟨i, _, rfl⟩ := hrow
  simp

theorem iterRows_length (df : NumDataFrame) :
    df.iterRows.length = df.height := by
  simp [NumDataFrame.iterRows]

/-- C3: whenever the row-major branch of `_build_payloads` packs a stream
successfully, the packed blob's byte length (and the recorded `byte_size`)
equals `num_rows * row_byte_stride`; the recorded `num_rows` is the table's
row count; and `row_byte_stride` is the compiled size of the little-endian
struct format built from the column dtypes in column order (the sum of the
column byte widths). -/
theorem C3_row_major_blob_length (packFloat : Nat → Option Rat → List Nat)
    (df : NumDataFrame) (meta : StreamMeta) (stream : String)
    (blob : List Nat) (sch : RowMajorStreamSchema)
    (hpf : ∀ w q, (packFloat w q).length = w)
    (hok : buildRowMajorStream packFloat df meta stream = .ok (blob, sch)) :
    blob.length = sch.num_rows * sch.row_byte_stride ∧
    sch.byte_size = sch.num_rows * sch.row_byte_stride ∧
    sch.num_rows = df.height ∧
    (∃ chars, get_struct_format_string (df.cols.map NumSeries.dtype) = .ok chars ∧
      sch.row_byte_stride = packerSize chars) ∧
    sch.row_byte_stride = (df.cols.map fun c => c.dtype.byteWidth).sum := by
  simp only [buildRowMajorStream] at hok
  cases hprep : prepare_df_for_row_major_packing df meta stream with
  | error e =>
    rw [hprep] at hok
    simp [bind, Except.bind, Functor.map, Except.map] at hok
  | ok dfp =>
    rw [hprep] at hok
    simp only [bind, Except.bind] at hok
    cases hfmt : get_struct_format_string (dfp.cols.map NumSeries.dtype) with
    | error e =>
      rw [hfmt] at hok
      simp [bind, Except.bind, Functor.map, Except.map] at hok
    | ok chars =>
      rw [hfmt] at hok
      cases hpack : packRows packFloat (dfp.cols.map NumSeries.dtype) dfp.iterRows with
      | error e =>
        rw [hpack] at hok
        simp [bind, Except.bind, Functor.map, Except.map] at hok
      | ok b =>
        rw [hpack] at hok
        simp only [bind, Except.bind, Functor.map, Except.map, pure, Except.pure,
          Except.ok.injEq, Prod.mk.injEq] at hok
        obtain ⟨hb, hsch⟩ := hok
        subst hb
        subst hsch
        obtain ⟨hdt, hh⟩ := prepare_preserves_shape df meta stream dfp hprep
        have hrowlen : ∀ row ∈ dfp.iterRows, row.length =
            (dfp.cols.map NumSeries.dtype).length := by
          intro row hr
          rw [List.length_map]
          exact iterRows_row_length dfp row hr
        have hblob := packRows_length packFloat hpf _ _ _ hrowlen hpack
        have hsum : ((dfp.cols.map NumSeries.dtype).map Dtype.byteWidth).sum =
            (df.cols.map fun c => c.dtype.byteWidth).sum := by
          rw [hdt, List.map_map]
          rfl
        have hstride : packerSize chars =
            (df.cols.map fun c => c.dtype.byteWidth).sum := by
          rw [get_struct_format_size _ _ hfmt, hsum]
        refine ⟨?_, ?_, ?_, ⟨chars, ?_, ?_⟩, ?_⟩
        · simp only [hblob, iterRows_length, hh, hstride, hsum]
        · simp only [hblob, iterRows_length, hh, hstride, hsum]
        · exact hh
        · rw [← hdt]; exact hfmt
        · rfl
        · exact hstride

/-- Witness for C3: a two-column (`UInt32`, `UInt8`), two-row table packs
into 10 bytes with stride 5. -/
theorem C3_row_major_blob_length_witness :
    buildRowMajorStream (fun w _ => List.replicate w 0)
        ⟨[⟨"frame", .uint32, [some 1, some 2]⟩,
          ⟨"team_id", .uint8, [some 0, some 3]⟩]⟩
        ⟨[], ⟨some "row-major-mixed", none⟩⟩ "unit_positions" =
      .ok ([1, 0, 0, 0, 0, 2, 0, 0, 0, 3],
           ⟨"row-major-mixed", 10, 2, 5, "unit_positions"⟩) ∧
    (10 : Nat) = 2 * 5 := by
  have hok : buildRowMajorStream (fun w _ => List.replicate w 0)
      ⟨[⟨"frame", .uint32, [some 1, some 2]⟩,
        ⟨"team_id", .uint8, [some 0, some 3]⟩]⟩
      ⟨[], ⟨some "row-major-mixed", none⟩⟩ "unit_positions" =
      .ok ([1, 0, 0, 0, 0, 2, 0, 0, 0, 3],
           ⟨"row-major-mixed", 10, 2, 5, "unit_positions"⟩) := by rfl
  refine ⟨hok, ?_⟩
  have h := C3_row_major_blob_length (fun w _ => List.replicate w 0)
      ⟨[⟨"frame", .uint32, [some 1, some 2]⟩,
        ⟨"team_id", .uint8, [some 0, some 3]⟩]⟩
      ⟨[], ⟨some "row-major-mixed", none⟩⟩ "unit_positions"
      [1, 0, 0, 0, 0, 2, 0, 0, 0, 3]
      ⟨"row-major-mixed", 10, 2, 5, "unit_positions"⟩
      (fun w q => by simp) hok
  simpa using h.1

theorem offsAux_length (ns : List Nat) : ∀ acc, (offsAux ns acc).length = ns.length := by
  induction ns with
  | nil => intro acc; rfl
  | cons n rest ih => intro acc; simp [offsAux, ih]

theorem offsAux_chain (ns : List Nat) : ∀ acc, List.Chain (· ≤ ·) acc (offsAux ns acc) := by
  induction ns with
  | nil => intro acc; exact List.Chain.nil
  | cons n rest ih =>
    intro acc
    exact List.Chain.cons (Nat.le_add_right acc n) (ih (acc + n))

theorem offsAux_getLast (ns : List Nat) :
    ∀ acc, (acc :: offsAux ns acc).getLast? = some (acc + ns.sum) := by
  induction ns with
  | nil => intro acc; simp [offsAux]
  | cons n rest ih =>
    intro acc
    rw [offsAux, List.getLast?_cons_cons, ih (acc + n)]
    simp only [List.sum_cons]
    ring_nf

theorem offsAux_zero_seg (ns : List Nat) :
    ∀ acc i, ns[i]? = some 0 →
      (acc :: offsAux ns acc)[i + 1]? = (acc :: offsAux ns acc)[i]? := by
  induction ns with
  | nil => intro acc i h; simp at h
  | cons n rest ih =>
    intro acc i h
    cases i with
    | zero =>
      simp only [List.getElem?_cons_zero] at h
      cases h
      simp [offsAux]
    | succ j =>
      simp only [List.getElem?_cons_succ] at h
      have := ih (acc + n) j h
      simpa [offsAux] using this

theorem offsetsOf_length (lens : List Nat) :
    (offsetsOf lens).length = lens.length + 1 := by
  simp [offsetsOf, offsAux_length]

theorem offsetsOf_head (lens : List Nat) : (offsetsOf lens).head? = some 0 := rfl

theorem offsetsOf_sorted (lens : List Nat) :
    List.Sorted (· ≤ ·) (offsetsOf lens) := by
  have h := offsAux_chain lens 0
  exact List.chain_iff_pairwise.mp h

theorem offsetsOf_getLast (lens : List Nat) :
    (offsetsOf lens).getLast? = some lens.sum := by
  have h := offsAux_getLast lens 0
  simpa [offsetsOf] using h

theorem offsetsOf_zero_seg (lens : List Nat) (i : Nat) (h : lens[i]? = some 0) :
    (offsetsOf lens)[i + 1]? = (offsetsOf lens)[i]? :=
  offsAux_zero_seg lens 0 i h

theorem packListElem_length (packFloat : Nat → Option Rat → List Nat)
    (hpf : ∀ w q, (packFloat w q).length = w) (inner : Dtype) (e : ListElem) :
    (packListElem packFloat inner e).length = inner.byteWidth := by
  cases e with
  | num q =>
    simp only [packListElem]
    by_cases hf : inner.isFloat = true
    · simp [hf, hpf]
    · simp [hf, leBytes_length]
  | nan => simp [packListElem, hpf]

theorem flatten_packed_length (packFloat : Nat → Option Rat → List Nat)
    (hpf : ∀ w q, (packFloat w q).length = w) (inner : Dtype) (proc : List ListElem) :
    ((proc.map (packListElem packFloat inner)).flatten).length =
      proc.length * inner.byteWidth := by
  rw [List.length_flatten, List.map_map]
  have : (List.length ∘ packListElem packFloat inner) =
      fun _ : ListElem => inner.byteWidth := by
    funext e
    exact packListElem_length packFloat hpf inner e
  rw [this, List.map_const', List.sum_replicate, smul_eq_mul]

theorem procList_length (is_flt : Bool) (xs : List (Option Rat))
    (proc : List ListElem) (h : procList is_flt xs = .ok proc) :
    proc.length = xs.length := by
  induction xs generalizing proc with
  | nil => simp only [procList] at h; cases h; rfl
  | cons x rest ih =>
    cases x with
    | none =>
      simp only [procList] at h
      by_cases hf : is_flt = true
      · rw [if_pos hf] at h
        cases hrest : procList is_flt rest with
        | error e =>
          rw [hrest] at h
          simp [bind, Except.bind, Functor.map, Except.map] at h
        | ok es =>
          rw [hrest] at h
          simp only [bind, Except.bind, Functor.map, Except.map, pure, Except.pure,
            Except.ok.injEq] at h
          subst h
          simp [ih es hrest]
      · rw [if_neg hf] at h; cases h
    | some q =>
      simp only [procList] at h
      cases hrest : procList is_flt rest with
      | error e =>
        rw [hrest] at h
        simp [bind, Except.bind, Functor.map, Except.map] at h
      | ok es =>
        rw [hrest] at h
        simp only [bind, Except.bind, Functor.map, Except.map, pure, Except.pure,
          Except.ok.injEq] at h
        subst h
        simp [ih es hrest]

theorem encodeListCells_spec (packFloat : Nat → Option Rat → List Nat)
    (hpf : ∀ w q, (packFloat w q).length = w) (inner : Dtype) (is_flt : Bool)
    (cells : List (Option (List (Option Rat)))) :
    ∀ count offs parts,
      encodeListCells packFloat inner is_flt cells count = .ok (offs, parts) →
      offs.length = cells.length ∧
      List.Chain (· ≤ ·) count offs ∧
      (∃ final, (count :: offs).getLast? = some final ∧
        parts.flatten.length + count * inner.byteWidth = final * inner.byteWidth) ∧
      (∀ i, cells[i]? = some none → (count :: offs)[i + 1]? = (count :: offs)[i]?) := by
  induction cells with
  | nil =>
    intro count offs parts h
    simp only [encodeListCells] at h
    cases h
    refine ⟨rfl, List.Chain.nil, ⟨count, by simp, by simp⟩, ?_⟩
    intro i hi
    simp at hi
  | cons cell rest ih =>
    intro count offs parts h
    cases cell with
    | none =>
      simp only [encodeListCells] at h
      cases hrest : encodeListCells packFloat inner is_flt rest count with
      | error e =>
        rw [hrest] at h
        simp [bind, Except.bind, Functor.map, Except.map] at h
      | ok pr =>
        obtain ⟨offs', parts'⟩ := pr
        rw [hrest] at h
        simp only [bind, Except.bind, Functor.map, Except.map, pure, Except.pure,
          Except.ok.injEq, Prod.mk.injEq] at h
        obtain ⟨ho, hp⟩ := h
        subst ho; subst hp
        obtain ⟨hlen, hchain, ⟨final, hlast, hbytes⟩, hseg⟩ := ih count offs' parts' hrest
        refine ⟨by simp [hlen], List.Chain.cons (le_refl count) hchain,
          ⟨final, ?_, by simpa using hbytes⟩, ?_⟩
        · rw [List.getLast?_cons_cons]
          exact hlast
        · intro i hi
          cases i with
          | zero => simp
          | succ j =>
            simp only [List.getElem?_cons_succ] at hi
            have := hseg j hi
            simpa using this
    | some sub_list =>
      simp only [encodeListCells] at h
      cases hproc : procList is_flt sub_list with
      | error e =>
        rw [hproc] at h
        simp [bind, Except.bind, Functor.map, Except.map] at h
      | ok proc =>
        rw [hproc] at h
        simp only [bind, Except.bind] at h
        cases hrest : encodeListCells packFloat inner is_flt rest
            (if proc ≠ [] then count + proc.length else count) with
        | error e =>
          rw [hrest] at h
          simp [bind, Except.bind, Functor.map, Except.map] at h
        | ok pr =>
          obtain ⟨offs', parts'⟩ := pr
          rw [hrest] at h
          simp only [bind, Except.bind, Functor.map, Except.map, pure, Except.pure,
            Except.ok.injEq, Prod.mk.injEq] at h
          obtain ⟨ho, hp⟩ := h
          subst ho; subst hp
          have hcount : (if proc ≠ [] then count + proc.length else count) =
              count + proc.length := by
            by_cases hnil : proc = []
            · simp [hnil]
            · simp [hnil]
          rw [hcount] at hrest
          have hpart : (if proc ≠ [] then
              (proc.map (packListElem packFloat inner)).flatten else []) =
              (proc.map (packListElem packFloat inner)).flatten := by
            by_cases hnil : proc = []
            · simp [hnil]
            · simp [hnil]
          rw [hpart]
          obtain ⟨hlen, hchain, ⟨final, hlast, hbytes⟩, hseg⟩ :=
            ih (count + proc.length) offs' parts' hrest
          have hco : (if proc ≠ [] then count + proc.length else count) =
              count + proc.length := hcount
          refine ⟨by simp [hlen], ?_, ⟨final, ?_, ?_⟩, ?_⟩
          · rw [hco]
            exact List.Chain.cons (Nat.le_add_right count proc.length) hchain
          · rw [hco, List.getLast?_cons_cons]
            exact hlast
          · rw [List.flatten_cons, List.length_append,
              flatten_packed_length packFloat hpf inner proc]
            rw [Nat.add_mul] at hbytes
            omega
          · intro i hi
            cases i with
            | zero => simp at hi
            | succ j =>
              simp only [List.getElem?_cons_succ] at hi
              have := hseg j hi
              rw [hco]
              simpa using this

/-- C4: on the columnar path, for every UTF-8 string column and every
list-of-primitive column, the emitted offsets array has length
`num_rows + 1`, starts at 0, is monotonically non-decreasing, and its last
element equals the byte length of the emitted data blob (for strings),
respectively the element count of the data blob (for lists, whose blob
holds `final * byteWidth(inner)` bytes); null cells contribute zero-length
segments. -/
theorem C4_offsets_invariants (packFloat : Nat → Option Rat → List Nat)
    (hpf : ∀ w q, (packFloat w q).length = w) :
    (∀ cells : List (Option String),
      (encodeUtf8Series cells).1.length = cells.length + 1 ∧
      (encodeUtf8Series cells).1.head? = some 0 ∧
      List.Sorted (· ≤ ·) (encodeUtf8Series cells).1 ∧
      (encodeUtf8Series cells).1.getLast? = some (encodeUtf8Series cells).2.length ∧
      (∀ i, cells[i]? = some none →
        (encodeUtf8Series cells).1[i + 1]? = (encodeUtf8Series cells).1[i]?)) ∧
    (∀ inner cells offs data,
      encodeListSeries packFloat inner cells = .ok (offs, data) →
      offs.length = cells.length + 1 ∧
      offs.head? = some 0 ∧
      List.Sorted (· ≤ ·) offs ∧
      (∃ final, offs.getLast? = some final ∧
        data.length = final * inner.byteWidth) ∧
      (∀ i, cells[i]? = some none → offs[i + 1]? = offs[i]?)) := by
  constructor
  · intro cells
    simp only [encodeUtf8Series]
    refine ⟨?_, offsetsOf_head _, offsetsOf_sorted _, ?_, ?_⟩
    · rw [offsetsOf_length]
      simp
    · rw [offsetsOf_getLast, List.length_flatten, List.map_map]
    · intro i hi
      apply offsetsOf_zero_seg
      rw [List.getElem?_map, List.getElem?_map, hi]
      rfl
  · intro inner cells offs data hok
    simp only [encodeListSeries] at hok
    cases hcells : encodeListCells packFloat inner
        (decide (inner = Dtype.float32 ∨ inner = Dtype.float64)) cells 0 with
    | error e =>
      rw [hcells] at hok
      simp [bind, Except.bind, Functor.map, Except.map] at hok
    | ok pr =>
      obtain ⟨offs0, parts⟩ := pr
      rw [hcells] at hok
      simp only [bind, Except.bind, Functor.map, Except.map, pure, Except.pure,
        Except.ok.injEq, Prod.mk.injEq] at hok
      obtain ⟨ho, hd⟩ := hok
      subst ho; subst hd
      obtain ⟨hlen, hchain, ⟨final, hlast, hbytes⟩, hseg⟩ :=
        encodeListCells_spec packFloat hpf inner _ cells 0 offs0 parts hcells
      refine ⟨by simp [hlen], rfl, ?_, ⟨final, hlast, ?_⟩, hseg⟩
      · exact List.chain_iff_pairwise.mp hchain
      · simpa using hbytes

/-- Witness for C4: a three-row list-of-`Int32` column and a three-row
string column, each with a null in the middle. -/
theorem C4_offsets_invariants_witness :
    encodeListSeries (fun w _ => List.replicate w 0) .int32
        [some [some 1, some 2], none, some []] =
      .ok ([0, 2, 2, 2], [1, 0, 0, 0, 2, 0, 0, 0]) ∧
    List.Sorted (· ≤ ·) ([0, 2, 2, 2] : List Nat) ∧
    ([1, 0, 0, 0, 2, 0, 0, 0] : List Nat).length = 2 * Dtype.int32.byteWidth ∧
    (encodeUtf8Series [some "ab", none, some "c"]).1 = [0, 2, 2, 3] ∧
    List.Sorted (· ≤ ·) (encodeUtf8Series [some "ab", none, some "c"]).1 := by
  have hpf : ∀ w q, ((fun (w : Nat) (_ : Option Rat) => List.replicate w 0) w q).length = w := by
    intro w q
    simp
  have hok : encodeListSeries (fun w _ => List.replicate w 0) .int32
      [some [some 1, some 2], none, some []] =
      .ok ([0, 2, 2, 2], [1, 0, 0, 0, 2, 0, 0, 0]) := by rfl
  have h := (C4_offsets_invariants (fun w _ => List.replicate w 0) hpf).2
      .int32 [some [some 1, some 2], none, some []] [0, 2, 2, 2]
      [1, 0, 0, 0, 2, 0, 0, 0] hok
  have hu := (C4_offsets_invariants (fun w _ => List.replicate w 0) hpf).1
      [some "ab", none, some "c"]
  refine ⟨hok, h.2.2.1, ?_, by rfl, hu.2.2.1⟩
  obtain ⟨final, hlast, hdata⟩ := h.2.2.2.1
  have : final = 2 := by
    rw [show ([0, 2, 2, 2] : List Nat).getLast? = some 2 from rfl] at hlast
    cases hlast
    rfl
  rw [← this]
  exact hdata

theorem ratTrunc_intCast (z : Int) : ratTrunc ((z : Int) : Rat) = z := by
  unfold ratTrunc
  split <;> simp

theorem dtype_float_int_disjoint (t : Dtype) (h : t.isInt = true) :
    t.isFloat = false := by
  cases t <;> simp_all [Dtype.isInt, Dtype.isFloat, Dtype.isSignedInt,
    Dtype.isUnsignedInt]

theorem castCells_mapped (t : Dtype) (ht : (t.isFloat || t.isInt) = true)
    (l : List (Option Rat))
    (hint : ∀ o ∈ l, ∀ q, o = some q →
      ∃ z : Int, q = (z : Rat) ∧ (t.isInt = true → t.inIntRange z = true)) :
    castCells t l = .ok l := by
  induction l with
  | nil => rfl
  | cons o rest ih =>
    have hrest := ih fun o' ho' => hint o' (List.mem_cons_of_mem _ ho')
    cases o with
    | none =>
      simp only [castCells, castCell, hrest]
      simp [bind, Except.bind, pure, Except.pure]
    | some q =>
      obtain ⟨z, hq, hr⟩ :=
        hint (some q) (List.mem_cons_self _ _) q rfl
      simp only [castCells, castCell]
      by_cases hf : t.isFloat = true
      · simp only [hf, if_pos, hrest]
        simp [bind, Except.bind, pure, Except.pure]
      · have hi : t.isInt = true := by
          rcases Bool.or_eq_true_iff.mp ht with h | h
          · exact absurd h hf
          · exact h
        subst hq
        simp only [hf, hi, if_pos, if_neg, Bool.false_eq_true, ratTrunc_intCast,
          hr hi, hrest]
        simp [bind, Except.bind, pure, Except.pure]

theorem round_div_pipeline (cells : List (Option Rat)) (sc : Rat) :
    seriesRound0 (seriesDivScalar cells sc) =
      cells.map (Option.map fun v => ((roundAway (v / sc) : Int) : Rat)) := by
  simp only [seriesRound0, seriesDivScalar, List.map_map]
  apply List.map_congr_left
  intro o _
  cases o <;> simp

/-- C5: a column under a static quantize rule with scale `s` and a declared
numeric `to_type` (with the rounded values in range for an integer target)
transforms every non-null value `v` to `round(v / s)` cast to `to_type`,
leaves nulls null, and the returned metadata records the transform kind
`static_quantize`, the scale `s`, and the original dtype. -/
theorem C5_static_quantize (series : NumSeries) (cc : ColContract) (sc : Rat)
    (t : Dtype)
    (hp : cc.params.ptype = some "static")
    (hs : cc.params.scale = some sc)
    (hpos : 0 < sc)
    (ht : cc.to_type = some t)
    (hnum : (t.isFloat || t.isInt) = true)
    (hrange : t.isInt = true → ∀ v : Rat, some v ∈ series.cells →
      t.inIntRange (roundAway (v / sc)) = true) :
    apply_quantization series cc =
      .ok (⟨series.name, t,
            series.cells.map (Option.map fun v => ((roundAway (v / sc) : Int) : Rat))⟩,
           ⟨"static_quantize", some sc, series.dtype.str⟩) := by
  have hcast : castCells t (seriesRound0 (seriesDivScalar series.cells sc)) =
      .ok (series.cells.map (Option.map fun v => ((roundAway (v / sc) : Int) : Rat))) := by
    rw [round_div_pipeline]
    apply castCells_mapped t hnum
    intro o ho q hq
    subst hq
    rw [List.mem_map] at ho
    obtain ⟨c, hc, hco⟩ := ho
    cases c with
    | none => simp at hco
    | some v =>
      simp only [Option.map_some'] at hco
      refine ⟨roundAway (v / sc), ?_, fun hi => hrange hi v hc⟩
      exact (Option.some.injEq _ _).mp hco.symm
  simp only [apply_quantization, ht, hp, hs]
  simp only [bind, Except.bind, pure, Except.pure, if_pos]
  rw [hcast]

/-- Witness for C5 (scenario S4): `army_value = [0.0, 123.4, 999.9]` under
static quantize with scale 0.1 to `UInt32` becomes `[0, 1234, 9999]` and
the metadata records `static_quantize`, scale 0.1 and `Float64`. -/
theorem C5_static_quantize_witness :
    apply_quantization armyValueSeries armyValueContract =
      .ok (⟨"army_value", .uint32, [some 0, some 1234, some 9999]⟩,
           ⟨"static_quantize", some (1 / 10), "Float64"⟩) := by
  have hrange : Dtype.uint32.isInt = true → ∀ v : Rat,
      some v ∈ armyValueSeries.cells →
      Dtype.uint32.inIntRange (roundAway (v / (1 / 10))) = true := by
    intro _ v hv
    simp only [armyValueSeries, List.mem_cons, List.not_mem_nil, or_false,
      Option.some.injEq] at hv
    rcases hv with rfl | rfl | rfl <;>
      norm_num [Dtype.inIntRange, Dtype.intMin, Dtype.intMax, Dtype.byteWidth,
        Dtype.isSignedInt, roundAway]
  have h := C5_static_quantize armyValueSeries armyValueContract (1 / 10)
    .uint32 rfl rfl (by norm_num) rfl rfl hrange
  rw [h]
  norm_num [armyValueSeries, roundAway, Dtype.str, Option.map_some']

/-- C6 counterexample: a one-column `Int64` frame under a `cast(Float64)`
rule does emit the cast column, but the per-column metadata records the
transform kind as `"none"` (with a source comment saying no transform
metadata is needed for a simple cast), not `"cast"`. -/
theorem C6_cast_metadata_counterexample :
    transform_single_df ⟨[⟨"frame", .int64, [some 1]⟩]⟩
        ⟨[("frame", ⟨"cast", some .float64, ⟨none, none⟩⟩)], ⟨none, none⟩⟩ =
      .ok (⟨[⟨"frame", .float64, [some 1]⟩]⟩,
           ⟨[("frame", ⟨"none", none, "Int64"⟩)], ⟨none, none⟩⟩) ∧
    ("none" : String) ≠ "cast" := by
  constructor
  · rfl
  · decide

/-- C6 (amended): for a column under a `cast(to_type)` rule, the engine
emits the column cast to `to_type`, and the per-column metadata records the
column's original dtype together with the transform kind `"none"` (not
`"cast"`). -/
theorem C6_cast_rule (df : NumDataFrame) (c : String) (cc : ColContract)
    (t : Dtype) (topts : TableMeta) (s : NumSeries) (cs : List (Option Rat))
    (htr : cc.transform = "cast")
    (ht : cc.to_type = some t)
    (hcol : df.getColumn c = some s)
    (hcast : castCells t s.cells = .ok cs) :
    transform_single_df df ⟨[(c, cc)], topts⟩ =
      .ok (df.withColumnReplaced c ⟨c, t, cs⟩,
           ⟨[(c, ⟨"none", none, s.dtype.str⟩)], topts⟩) := by
  simp only [transform_single_df, foldContractSteps, transformContractStep,
    hcol, htr, ht, hcast]
  simp only [bind, Except.bind, pure, Except.pure, reduceCtorEq, reduceIte,
    if_neg, if_pos, String.reduceEq]
  rw [hcast]
  simp

/-- Witness for C6: the `frame` column of the `unit_positions` contract,
`Int64` cast to `UInt32`. -/
theorem C6_cast_rule_witness :
    transform_single_df ⟨[⟨"frame", .int64, [some 3, some 4]⟩]⟩
        ⟨[("frame", ⟨"cast", some .uint32, ⟨none, none⟩⟩)], ⟨none, none⟩⟩ =
      .ok (⟨[⟨"frame", .uint32, [some 3, some 4]⟩]⟩,
           ⟨[("frame", ⟨"none", none, "Int64"⟩)], ⟨none, none⟩⟩) := by
  have h := C6_cast_rule ⟨[⟨"frame", .int64, [some 3, some 4]⟩]⟩ "frame"
    ⟨"cast", some .uint32, ⟨none, none⟩⟩ .uint32 ⟨none, none⟩
    ⟨"frame", .int64, [some 3, some 4]⟩ [some 3, some 4]
    rfl rfl (by rfl) (by rfl)
  rw [h]
  rfl

theorem divideBy_eq_float (v : TValue) (d : Rat) :
    v.divideBy d = .float (v.toRat / d) := by
  cases v <;> rfl

theorem dequantField_key_comp (f g : String) (d : Rat) :
    ((fun kv : String × Option TValue => kv.1 == f) ∘ fun kv =>
      if kv.1 == g then
        (kv.1, match kv.2 with
               | some tv => some (tv.divideBy d)
               | none => none)
      else kv) = fun kv : String × Option TValue => kv.1 == f := by
  funext kv
  simp only [Function.comp]
  split <;> rfl

theorem lookupAssoc_dequantField_self (rec : TRecord) (f : String) (d : Rat) :
    lookupAssoc (dequantField rec f d) f =
      (lookupAssoc rec f).map (Option.map fun tv => tv.divideBy d) := by
  simp only [lookupAssoc, dequantField, List.find?_map, dequantField_key_comp,
    Option.map_map]
  cases hfind : rec.find? (fun kv => kv.1 == f) with
  | none => rfl
  | some kv =>
    have hp0 := List.find?_some hfind
    have hp : (kv.1 == f) = true := by simpa using hp0
    simp only [Option.map_some', Function.comp, hp, if_pos]
    cases hv : kv.2 <;> simp

theorem lookupAssoc_dequantField_other (rec : TRecord) (f g : String) (d : Rat)
    (h : f ≠ g) :
    lookupAssoc (dequantField rec g d) f = lookupAssoc rec f := by
  simp only [lookupAssoc, dequantField, List.find?_map, dequantField_key_comp,
    Option.map_map]
  cases hfind : rec.find? (fun kv => kv.1 == f) with
  | none => rfl
  | some kv =>
    have hp0 := List.find?_some hfind
    have hp : (kv.1 == f) = true := by simpa using hp0
    have hkg : ¬ kv.1 = g := by
      have : kv.1 = f := by simpa using hp
      subst this
      simpa using h
    simp [Option.map_some', Function.comp, hkg]

theorem applyDequant_foldl_lookup (d : Rat) (f : String) (fields : List String) :
    ∀ rec : TRecord, fields.Nodup →
      lookupAssoc (fields.foldl (fun acc x => dequantField acc x d) rec) f =
        if f ∈ fields then
          (lookupAssoc rec f).map (Option.map fun tv => tv.divideBy d)
        else lookupAssoc rec f := by
  induction fields with
  | nil => intro rec _; simp
  | cons g gs ih =>
    intro rec hnd
    have hnd' : gs.Nodup := (List.nodup_cons.mp hnd).2
    have hgn : g ∉ gs := (List.nodup_cons.mp hnd).1
    simp only [List.foldl_cons]
    by_cases hfg : f = g
    · subst hfg
      have hmem : f ∈ f :: gs := List.mem_cons_self f gs
      rw [ih (dequantField rec f d) hnd']
      rw [if_neg hgn, if_pos hmem]
      exact lookupAssoc_dequantField_self rec f d
    · rw [ih (dequantField rec g d) hnd']
      have heq := lookupAssoc_dequantField_other rec f g d hfg
      by_cases hmem : f ∈ gs
      · rw [if_pos hmem, if_pos (List.mem_cons_of_mem g hmem), heq]
      · have : f ∉ g :: gs := by
          simp [List.mem_cons, hfg, hmem]
        rw [if_neg hmem, if_neg this, heq]

/-- C7: for an aspect with a dequantization rule of divisor `d` over the
field set `F`, the dequantization step of the value transformer replaces
each non-null value of a field in `F` with `value / d` as a float, leaves
null values of those fields null, and leaves every field outside `F`
untouched by dequantization. -/
theorem C7_dequantization (d : Rat) (fields : List String) (rec : TRecord)
    (f : String) (hd : 0 < d) (hnd : fields.Nodup) :
    (∀ v : TValue, f ∈ fields → lookupAssoc rec f = some (some v) →
      lookupAssoc (applyDequant (some ⟨d, fields⟩) rec) f =
        some (some (.float (v.toRat / d)))) ∧
    (f ∈ fields → lookupAssoc rec f = some none →
      lookupAssoc (applyDequant (some ⟨d, fields⟩) rec) f = some none) ∧
    (f ∉ fields →
      lookupAssoc (applyDequant (some ⟨d, fields⟩) rec) f = lookupAssoc rec f) := by
  have hdz : ¬ d = 0 := ne_of_gt hd
  have hfold := applyDequant_foldl_lookup d f fields rec hnd
  simp only [applyDequant, if_neg hdz]
  refine ⟨fun v hmem hval => ?_, fun hmem hval => ?_, fun hmem => ?_⟩
  · rw [hfold, if_pos hmem, hval]
    simp [divideBy_eq_float]
  · rw [hfold, if_pos hmem, hval]
    rfl
  · rw [hfold, if_neg hmem]

/-- Witness for C7 (scenario S1): in a `team_stats` raw record with
`metal_used = 123` under divisor 10, the dequantized field reads 12.3 and
the untagged `frame` field is untouched. -/
theorem C7_dequantization_witness :
    lookupAssoc (applyDequant (some ⟨10, ["metal_used", "damage_dealt"]⟩)
        [("frame", some (.int 1)), ("metal_used", some (.int 123)),
         ("damage_dealt", some (.int 456))]) "metal_used" =
      some (some (.float (123 / 10))) ∧
    lookupAssoc (applyDequant (some ⟨10, ["metal_used", "damage_dealt"]⟩)
        [("frame", some (.int 1)), ("metal_used", some (.int 123)),
         ("damage_dealt", some (.int 456))]) "frame" =
      some (some (.int 1)) := by
  constructor
  · have h := (C7_dequantization 10 ["metal_used", "damage_dealt"]
      [("frame", some (.int 1)), ("metal_used", some (.int 123)),
       ("damage_dealt", some (.int 456))] "metal_used"
      (by norm_num) (by decide)).1 (.int 123) (by decide) (by rfl)
    rw [h]
    rfl
  · have h := (C7_dequantization 10 ["metal_used", "damage_dealt"]
      [("frame", some (.int 1)), ("metal_used", some (.int 123)),
       ("damage_dealt", some (.int 456))] "frame"
      (by norm_num) (by decide)).2.2 (by decide)
    rw [h]
    rfl

theorem insertAssoc_key_comp (k : String) (v : Option TValue) :
    ((fun kv : String × Option TValue => kv.1 == k) ∘ fun kv =>
      if kv.1 == k then (k, v) else kv) =
      fun kv : String × Option TValue => kv.1 == k := by
  funext kv
  simp only [Function.comp]
  split
  · rename_i hkv
    simp_all
  · rfl

theorem lookupAssoc_insertAssoc_self (rec : TRecord) (k : String)
    (v : Option TValue) :
    lookupAssoc (insertAssoc rec k v) k = some v := by
  simp only [insertAssoc]
  by_cases hfind : (rec.find? fun kv => kv.1 == k).isSome = true
  · rw [if_pos hfind]
    obtain ⟨kv0, hkv0⟩ := Option.isSome_iff_exists.mp hfind
    have hp : (kv0.1 == k) = true := by simpa using List.find?_some hkv0
    simp only [lookupAssoc, List.find?_map, insertAssoc_key_comp, hkv0,
      Option.map_some', hp, if_pos]
  · rw [if_neg hfind]
    have hnone : rec.find? (fun kv => kv.1 == k) = none := by
      cases h : rec.find? fun kv => kv.1 == k
      · rfl
      · rw [h] at hfind; simp at hfind
    simp [lookupAssoc, List.find?_append, hnone]

/-- C8 counterexample: the `unit_economy` record with the unknown enum code
99 in `event_type` makes the value transformer raise a `Transformation`
error when `skip_on_error` is false, because the clean schema declares
`event_type` as a required non-nullable enum and the null produced by the
enum step fails validation.  So "sets the clean field to null instead of
raising an error ... regardless of skip_on_error" is false as stated. -/
theorem C8_enum_counterexample :
    enumFromCode unitEconomyEventsEnum 99 = none ∧
    lookupAssoc unitEconomyBadEnumRecord "event_type" = some (some (.int 99)) ∧
    transformStream false unitEconomyTransformConfig [unitEconomyBadEnumRecord] =
      .error (.transformation "Transformation/validation failed") := by
  refine ⟨rfl, rfl, rfl⟩

/-- C8 (amended): the enum-mapping step itself never raises on an unknown
non-null code: it sets the clean field to null, regardless of
`skip_on_error`.  The record then passes through clean-schema validation,
so when that validation fails the transformer raises `Transformation` if
`skip_on_error` is false and silently drops the record if it is true; a
record whose validation passes is yielded (with the null clean value). -/
theorem C8_enum_unknown_code (rec : TRecord) (rawField cleanField : String)
    (e : EnumDef) (v : TValue) (z : Int)
    (hv : lookupAssoc rec rawField = some (some v))
    (hz : v.enumLookupCode = some z)
    (hnm : enumFromCode e z = none) :
    applyEnumRule rec rawField cleanField e =
      insertAssoc (if rawField ≠ cleanField then removeAssoc rec rawField else rec)
        cleanField none ∧
    lookupAssoc (applyEnumRule rec rawField cleanField e) cleanField = some none ∧
    (∀ (cfg : AspectTransformConfig) (r : TRecord) (err : PErr),
      transformRecord cfg r = .error err →
      transformStream false cfg [r] = .error err ∧
      transformStream true cfg [r] = .ok []) ∧
    (∀ (cfg : AspectTransformConfig) (r out : TRecord) (b : Bool),
      transformRecord cfg r = .ok out →
      transformStream b cfg [r] = .ok [out]) := by
  have hstep : applyEnumRule rec rawField cleanField e =
      insertAssoc (if rawField ≠ cleanField then removeAssoc rec rawField else rec)
        cleanField none := by
    simp only [applyEnumRule, hv, hz, hnm]
  refine ⟨hstep, ?_, ?_, ?_⟩
  · rw [hstep]
    exact lookupAssoc_insertAssoc_self _ _ _
  · intro cfg r err herr
    constructor
    · simp [transformStream, herr]
    · simp [transformStream, herr]
  · intro cfg r out b hok
    simp [transformStream, hok, bind, Except.bind, pure, Except.pure]

/-- Witness for C8: the unknown code 99 in the `unit_economy` record yields
a null `event_type` out of the enum step; the full transform errors without
`skip_on_error` and skips the row with it. -/
theorem C8_enum_unknown_code_witness :
    lookupAssoc (applyEnumRule unitEconomyBadEnumRecord "event_type"
        "event_type" unitEconomyEventsEnum) "event_type" = some none ∧
    transformStream false unitEconomyTransformConfig [unitEconomyBadEnumRecord] =
      .error (.transformation "Transformation/validation failed") ∧
    transformStream true unitEconomyTransformConfig [unitEconomyBadEnumRecord] =
      .ok [] := by
  have h := C8_enum_unknown_code unitEconomyBadEnumRecord "event_type"
    "event_type" unitEconomyEventsEnum (.int 99) 99 rfl rfl rfl
  refine ⟨h.2.1, ?_⟩
  have herr : transformRecord unitEconomyTransformConfig unitEconomyBadEnumRecord =
      .error (.transformation "Transformation/validation failed") := rfl
  exact h.2.2.1 unitEconomyTransformConfig unitEconomyBadEnumRecord _ herr

/-- C9: on the columnar path a Boolean column serializes through the
`_NUMPY_DTYPE_MAP` entry `Boolean -> uint8`: one byte per value (1 for
true, 0 for false), so the emitted `{base}_bin` blob has exactly `num_rows`
bytes, while the schema entry's dtype string stays `"Boolean"`. -/
theorem C9_boolean_serialization (packFloat : Nat → Option Rat → List Nat)
    (name : String) (cells : List (Option Bool))
    (h : cells.any Option.isNone = false) :
    series_to_bytes packFloat ⟨name, .boolean, .bools cells⟩ =
      .ok ([(name ++ "_bin", cells.map fun c => if c.getD false then 1 else 0)],
           [⟨name, "Boolean", some (name ++ "_bin"), none⟩]) ∧
    (cells.map fun c : Option Bool =>
      if c.getD false then (1 : Nat) else 0).length = cells.length := by
  constructor
  · simp only [series_to_bytes, series_to_bytes_recursive, encodePrimitiveBools, h,
      Bool.false_eq_true, if_neg, if_false]
    simp [bind, Except.bind, pure, Except.pure, Dtype.str]
  · simp

/-- Witness for C9: a three-row Boolean column serializes to the three
bytes `[1, 0, 1]` under dtype string `"Boolean"`. -/
theorem C9_boolean_serialization_witness :
    series_to_bytes (fun w _ => List.replicate w 0)
        ⟨"is_firing", .boolean, .bools [some true, some false, some true]⟩ =
      .ok ([("is_firing_bin", [1, 0, 1])],
           [⟨"is_firing", "Boolean", some "is_firing_bin", none⟩]) ∧
    ([1, 0, 1] : List Nat).length = 3 := by
  have h := C9_boolean_serialization (fun w _ => List.replicate w 0) "is_firing"
    [some true, some false, some true] rfl
  constructor
  · rw [h.1]
    rfl
  · rfl

/-- C10: whenever a definitions table is supplied (`defs_df is not None`),
the hybrid encoder appends `"defs_map"` to `schema.static_assets` on every
successful write; yet when the table is empty or the `defs` contract does
not declare the `to_lookup_map` transform, the write still succeeds with no
`"defs_map"` entry in the data map, so `static_assets` can name an asset
with no corresponding data blob. -/
theorem C10_defs_map_static_asset (pk : List String) (gm : Option (List Nat))
    (dc : DefsContract) :
    (∀ (rows : List DefsRow) (out : HybridAssets),
      hybridAssembleAssets pk gm (some rows) dc = .ok out →
      "defs_map" ∈ out.staticAssets) ∧
    (∀ rows : List DefsRow,
      (rows = [] ∨ dc.transform ≠ some "to_lookup_map") →
      "defs_map" ∉ pk →
      ∃ out, hybridAssembleAssets pk gm (some rows) dc = .ok out ∧
        "defs_map" ∈ out.staticAssets ∧ "defs_map" ∉ out.dataKeys) := by
  constructor
  · intro rows out hok
    simp only [hybridAssembleAssets, bind, Except.bind, pure, Except.pure] at hok
    cases hm : hybridDefsData (if gameMetaTruthy gm = true then
        pk ++ ["game_meta"] else pk) rows dc with
    | error e =>
      rw [hm] at hok
      simp at hok
    | ok d2 =>
      rw [hm] at hok
      simp only [Except.ok.injEq] at hok
      subst hok
      simp
  · intro rows hcase hpk
    have hgm : "defs_map" ∉ (if gameMetaTruthy gm = true then pk ++ ["game_meta"]
        else pk) := by
      by_cases hg : gameMetaTruthy gm = true
      · simp only [hg, if_pos]
        intro hmem
        rcases List.mem_append.mp hmem with hmem | hmem
        · exact hpk hmem
        · simp at hmem
      · simp only [hg, Bool.false_eq_true, if_neg, if_false]
        exact hpk
    have hdefs : hybridDefsData (if gameMetaTruthy gm = true then
        pk ++ ["game_meta"] else pk) rows dc =
        .ok (if gameMetaTruthy gm = true then pk ++ ["game_meta"] else pk) := by
      rcases hcase with rfl | hne
      · simp [hybridDefsData, pure, Except.pure]
      · by_cases h1 : rows = []
        · simp [hybridDefsData, h1, pure, Except.pure]
        · simp [hybridDefsData, h1, hne, pure, Except.pure]
    refine ⟨⟨(if gameMetaTruthy gm = true then ["game_meta"] else []) ++ ["defs_map"],
      if gameMetaTruthy gm = true then pk ++ ["game_meta"] else pk⟩, ?_, ?_, hgm⟩
    · simp only [hybridAssembleAssets, bind, Except.bind, pure, Except.pure, hdefs]
      simp
    · simp

/-- Witness for C10: with the repository's real `defs` contract and an
empty definitions table, the write succeeds, `static_assets` names
`defs_map`, and the data map has no `defs_map` entry. -/
theorem C10_defs_map_static_asset_witness :
    hybridAssembleAssets ["team_stats"] none (some [])
        ⟨some "to_lookup_map", some "unit_def_id",
         some ["unit_name", "translated_human_name"]⟩ =
      .ok ⟨["defs_map"], ["team_stats"]⟩ ∧
    "defs_map" ∈ (["defs_map"] : List String) ∧
    "defs_map" ∉ (["team_stats"] : List String) := by
  have h := (C10_defs_map_static_asset ["team_stats"] none
    ⟨some "to_lookup_map", some "unit_def_id",
     some ["unit_name", "translated_human_name"]⟩).2 [] (Or.inl rfl)
    (by decide)
  obtain ⟨out, hok, hmem, hnot⟩ := h
  have hval : hybridAssembleAssets ["team_stats"] none (some [])
      ⟨some "to_lookup_map", some "unit_def_id",
       some ["unit_name", "translated_human_name"]⟩ =
      .ok ⟨["defs_map"], ["team_stats"]⟩ := rfl
  have hout : out = ⟨["defs_map"], ["team_stats"]⟩ := by
    rw [hval] at hok
    exact ((Except.ok.injEq _ _).mp hok).symm
  subst hout
  exact ⟨hok, hmem, hnot⟩
